import Mathlib

/-!
# Verification of `shipyard_app`'s `AppBuilder` (src/app_builder.rs)

A shallow embedding of the plugin/system/unique registration builder from
`src/app_builder.rs`, together with proofs about its behaviour.

Modelling conventions:
* `TypeId` (Rust `std::any::TypeId`) is an opaque key, modelled as `Nat`.
* `PluginId` (module `plugin_id`, not part of the sources at hand) is the
  nesting path of plugin type ids; modelled from the spec as a list of keys
  with push / pop / contains.
* Rust `HashMap`s are modelled as association lists in insertion order
  (iteration order of a `HashMap` is unspecified; no theorem below depends
  on the iteration order beyond membership).
* Rust panics are modelled as `Except.error` values carrying the data the
  panic message interpolates.
* `WorkloadSystem` values are opaque schedulables: user supplied systems are
  `Sys.user n`, and the generated `reset_update_pack::<T>` system is
  `Sys.resetUpdatePack t`.
* The side effect of `world.borrow::<ViewMut<T>>().update_pack()` on the
  external world is recorded in the event log `world_update_packed`.
* The `tracing` diagnostics (`warn!` / `trace!`) emitted by
  `finish_with_info_named` are returned as a list of `Diag` values.
-/

/-- Opaque stable identity of a Rust type (`std::any::TypeId`). -/
abbrev TypeId := Nat

/-- Model of `plugin_id::PluginId`. Modelled from the spec: the `plugin_id`
module is not among the sources; spec section 4.1 describes it as an ordered
sequence of type keys with `push`, `pop` and `contains`. -/
abbrev PluginId := List TypeId

/-- An opaque schedulable unit (`shipyard::WorkloadSystem`). `user n` is the
n-th caller-supplied system; `resetUpdatePack t` is the system
`reset_update_pack::<T>` generated by `update_pack` for type `t`. -/
inductive Sys where
  | user : Nat → Sys
  | resetUpdatePack : TypeId → Sys
deriving DecidableEq, Repr

/-- `HashMap::get` on an association list. -/
def alistGet {α : Type} (m : List (TypeId × α)) (k : TypeId) : Option α :=
  (m.find? (fun p => p.1 == k)).map Prod.snd

/-- `HashMap::contains_key` on an association list. -/
def alistContains {α : Type} (m : List (TypeId × α)) (k : TypeId) : Bool :=
  m.any (fun p => p.1 == k)

/-- `HashMap::Entry::or_insert_with` when used purely for interning: insert
`v` under `k` only if `k` is absent. -/
def alistInsertIfAbsent {α : Type} (m : List (TypeId × α)) (k : TypeId) (v : α) :
    List (TypeId × α) :=
  if alistContains m k then m else m ++ [(k, v)]

/-- `map.entry(k).or_default().push(v)`: append `v` to the list stored under
`k`, creating the entry if needed. -/
def alistPush {α : Type} : List (TypeId × List α) → TypeId → α → List (TypeId × List α)
  | [], k, v => [(k, [v])]
  | (k', l) :: rest, k, v =>
      if k' = k then (k', l ++ [v]) :: rest else (k', l) :: alistPush rest k v

/-- `HashMap::insert` (overwrite an existing entry, else append). -/
def alistInsert {α : Type} : List (TypeId × α) → TypeId → α → List (TypeId × α)
  | [], k, v => [(k, v)]
  | (k', w) :: rest, k, v =>
      if k' = k then (k, v) :: rest else (k', w) :: alistInsert rest k v

/-- `HashMap::remove` (drop the entry for `k`). -/
def alistRemove {α : Type} (m : List (TypeId × α)) (k : TypeId) : List (TypeId × α) :=
  m.filter (fun p => !(p.1 == k))

/-- The panics of `app_builder.rs`, with the data their messages interpolate.
`duplicateStage` / `unknownStage` model the failures the spec ascribes to the
stage assembler (`workloads` module). `missingTypeName` models the `unwrap()`
of a `track_type_names.get(..)` lookup in `finish_with_info_named`. -/
inductive BuildError where
  | duplicatePlugin : PluginId → PluginId → BuildError
  | pluginCycle : PluginId → String → BuildError
  | missingPluginDependency : PluginId → String → String → BuildError
  | duplicateStage : String → BuildError
  | unknownStage : String → BuildError
  | missingTypeName : TypeId → BuildError
  | unmetUniqueDependency : List (String × List (PluginId × String)) → BuildError
deriving DecidableEq, Repr

/-- The diagnostics traced by `finish_with_info_named`: the `warn!` for a
unique provided by several plugins, and the `trace!` emitted for every
unique. Fields: type name, `provided_by`, `depended_on_by`. -/
inductive Diag where
  | warnMultipleProviders : String → List PluginId → List (PluginId × String) → Diag
  | traceUnique : String → List PluginId → List (PluginId × String) → Diag
deriving DecidableEq, Repr

/-- Name of app stage responsible for doing most app logic
(`DEFAULT_STAGE` in the source). -/
def DEFAULT_STAGE : String := "default"

/-- Modelled from the spec: the `workloads` module (struct `Workloads`) is
not among the sources; spec section 4.3 (StageAssembler) describes named,
ordered buckets of systems. `ordered` mirrors the field of the same name
used by `finish_with_info_named`. -/
structure Workloads where
  ordered : List (String × List Sys)
deriving DecidableEq, Repr

/-- Modelled from the spec: a fresh stage assembler has no stages. -/
def Workloads.new : Workloads := ⟨[]⟩

/-- Modelled from the spec: `add_stage(name)` appends an empty stage and
fails with `DuplicateStage` if the name is already present. -/
def Workloads.add_stage (w : Workloads) (nm : String) : Except BuildError Workloads :=
  if w.ordered.any (fun p => p.1 == nm) then Except.error (BuildError.duplicateStage nm)
  else Except.ok ⟨w.ordered ++ [(nm, [])]⟩

/-- Append a system to the stage named `nm`, keeping stage order. -/
def stageAppend : List (String × List Sys) → String → Sys → Option (List (String × List Sys))
  | [], _, _ => none
  | (n, l) :: rest, nm, s =>
      if n = nm then some ((n, l ++ [s]) :: rest)
      else (stageAppend rest nm s).map (fun r => (n, l) :: r)

/-- Modelled from the spec: `add_system_to_stage(name, system)` appends to
the named stage and fails with `UnknownStage` if the name is absent. -/
def Workloads.add_system_to_stage (w : Workloads) (nm : String) (s : Sys) :
    Except BuildError Workloads :=
  match stageAppend w.ordered nm s with
  | some l => Except.ok ⟨l⟩
  | none => Except.error (BuildError.unknownStage nm)

/-- The concatenation of all stage system lists in stage order, as produced
by the `fold` over `stage_workloads.ordered` in `finish_with_info_named`. -/
def Workloads.flattenStages (w : Workloads) : List Sys :=
  w.ordered.foldr (fun p acc => p.2 ++ acc) []

/-- The builder state: the fields of `struct AppBuilder` (the `app` world
reference is represented only by the `world_update_packed` effect log). -/
structure AppBuilder where
  stage_workloads : Workloads
  resets : List Sys
  track_added_plugins : List (TypeId × PluginId)
  track_current_plugin : PluginId
  track_type_names : List (TypeId × String)
  track_uniques : List (TypeId × List PluginId)
  track_unique_dependencies : List (TypeId × List (PluginId × String))
  track_update_packed : List (TypeId × List (PluginId × String))
  world_update_packed : List TypeId
deriving DecidableEq, Repr

/-- `AppBuilder::empty`. -/
def AppBuilder.empty : AppBuilder :=
  { stage_workloads := Workloads.new
    resets := []
    track_added_plugins := []
    track_current_plugin := []
    track_type_names := []
    track_uniques := []
    track_unique_dependencies := []
    track_update_packed := []
    world_update_packed := [] }

/-- `AppBuilder::new`: `empty` followed by `add_default_stages`, which adds
the one `DEFAULT_STAGE` stage. -/
def AppBuilder.new : AppBuilder :=
  { AppBuilder.empty with stage_workloads := ⟨[(DEFAULT_STAGE, [])]⟩ }

/-- `AppBuilder::tracked_type_id_of::<T>`: record the type name on first
observation of the key; the map entry is left untouched if present. -/
def tracked_type_id_of (st : AppBuilder) (t : TypeId) (nm : String) : AppBuilder :=
  { st with track_type_names := alistInsertIfAbsent st.track_type_names t nm }

/-- The state from which a plugin body starts executing inside
`add_plugin::<T>`: the type is interned and T's key pushed onto the current
plugin path. -/
def pluginEntryState (st : AppBuilder) (t : TypeId) (nm : String) : AppBuilder :=
  { tracked_type_id_of st t nm with
      track_current_plugin := st.track_current_plugin ++ [t] }

mutual
/-- A build program step: one call a caller (or a plugin's `build`) makes on
the builder. `addPlugin t nm body` carries the type id and type name of `T`
together with the calls `T::build` makes. `addStage` models the private
`AppBuilder::add_stage`. -/
inductive Op where
  | addSystem : Nat → Op
  | addResetSystem : Nat → Op
  | addUnique : TypeId → String → Op
  | dependsOnUnique : TypeId → String → String → Op
  | dependsOnPlugin : TypeId → String → String → Op
  | updatePack : TypeId → String → String → Op
  | addStage : String → Op
  | addPlugin : TypeId → String → Ops → Op
inductive Ops where
  | nil : Ops
  | cons : Op → Ops → Ops
end

mutual
/-- Execute one builder call. Each case is a direct translation of the
corresponding method of `impl AppBuilder`; a Rust panic becomes
`Except.error`. -/
def runOp (st : AppBuilder) : Op → Except BuildError AppBuilder
  | Op.addSystem n =>
      (st.stage_workloads.add_system_to_stage DEFAULT_STAGE (Sys.user n)).map
        (fun w => { st with stage_workloads := w })
  | Op.addResetSystem n =>
      Except.ok { st with resets := st.resets ++ [Sys.user n] }
  | Op.addUnique t nm =>
      let st1 := tracked_type_id_of st t nm
      Except.ok { st1 with
        track_uniques := alistPush st1.track_uniques t st1.track_current_plugin }
  | Op.dependsOnUnique t nm r =>
      let st1 := tracked_type_id_of st t nm
      Except.ok { st1 with
        track_unique_dependencies :=
          alistPush st1.track_unique_dependencies t (st1.track_current_plugin, r) }
  | Op.dependsOnPlugin t nm r =>
      let st1 := tracked_type_id_of st t nm
      if alistContains st1.track_added_plugins t then Except.ok st1
      else Except.error
        (BuildError.missingPluginDependency st1.track_current_plugin nm r)
  | Op.updatePack t nm r =>
      let st1 := tracked_type_id_of st t nm
      if alistContains st1.track_update_packed t then
        Except.ok { st1 with
          track_update_packed :=
            alistPush st1.track_update_packed t (st1.track_current_plugin, r) }
      else
        Except.ok { st1 with
          track_update_packed :=
            alistInsert st1.track_update_packed t [(st1.track_current_plugin, r)]
          world_update_packed := st1.world_update_packed ++ [t]
          resets := st1.resets ++ [Sys.resetUpdatePack t] }
  | Op.addStage nm =>
      (st.stage_workloads.add_stage nm).map
        (fun w => { st with stage_workloads := w })
  | Op.addPlugin t nm body =>
      let st1 := tracked_type_id_of st t nm
      match alistGet st1.track_added_plugins t with
      | some prev =>
          Except.error (BuildError.duplicatePlugin st1.track_current_plugin prev)
      | none =>
          if t ∈ st1.track_current_plugin then
            Except.error (BuildError.pluginCycle st1.track_current_plugin
              ((alistGet st1.track_type_names t).getD ""))
          else do
            let st3 ← runOps (pluginEntryState st t nm) body
            let st4 := { st3 with
              track_added_plugins :=
                alistInsert st3.track_added_plugins t st3.track_current_plugin }
            Except.ok { st4 with
              track_current_plugin := st4.track_current_plugin.dropLast }
def runOps (st : AppBuilder) : Ops → Except BuildError AppBuilder
  | Ops.nil => Except.ok st
  | Ops.cons o rest => do
      let st1 ← runOp st o
      runOps st1 rest
end

/-- The `for (unique_type_id, provided_by) in track_uniques` diagnostics loop
of `finish_with_info_named`: for every unique, remove and collect its
dependents, look the name up (panicking if absent), `warn!` when it has more
than one provider and always `trace!` it. Returns the diagnostics together
with the dependency entries that remain after all removals. -/
def uniqueDiagLoop (names : List (TypeId × String)) :
    List (TypeId × List PluginId) → List (TypeId × List (PluginId × String)) →
    Except BuildError (List Diag × List (TypeId × List (PluginId × String)))
  | [], deps => Except.ok ([], deps)
  | (t, provided_by) :: rest, deps =>
      let depended_on_by := (alistGet deps t).getD []
      let deps1 := alistRemove deps t
      match alistGet names t with
      | none => Except.error (BuildError.missingTypeName t)
      | some nm =>
          (uniqueDiagLoop names rest deps1).map (fun p =>
            ((if provided_by.length > 1 then
                [Diag.warnMultipleProviders nm provided_by depended_on_by]
              else []) ++ [Diag.traceUnique nm provided_by depended_on_by] ++ p.1,
             p.2))

/-- The `remaining_unique_deps` collection of `finish_with_info_named`: one
`(type name, dependents)` message per remaining unmet unique dependency,
panicking if a name lookup fails. -/
def remainingDepsMsgs (names : List (TypeId × String)) :
    List (TypeId × List (PluginId × String)) →
    Except BuildError (List (String × List (PluginId × String)))
  | [] => Except.ok []
  | (t, dependents) :: rest =>
      match alistGet names t with
      | none => Except.error (BuildError.missingTypeName t)
      | some nm => (remainingDepsMsgs names rest).map (fun ms => (nm, dependents) :: ms)

/-- `AppBuilder::finish_with_info_named`: emit per-unique diagnostics, panic
if unmet unique dependencies remain, then assemble the workload as the fold
of the stage workloads (in stage order) followed by the `resets` workload.
Returns the ordered system list of the installed workload and the emitted
diagnostics. `track_added_plugins`, `track_current_plugin` and
`track_update_packed` are discarded by the destructuring pattern. -/
def finish (st : AppBuilder) : Except BuildError (List Sys × List Diag) := do
  let p ← uniqueDiagLoop st.track_type_names st.track_uniques st.track_unique_dependencies
  let msgs ← remainingDepsMsgs st.track_type_names p.2
  if msgs.isEmpty then
    Except.ok (st.stage_workloads.flattenStages ++ st.resets, p.1)
  else
    Except.error (BuildError.unmetUniqueDependency msgs)

/-- A builder state produced by running a build program from `AppBuilder.new`. -/
def Reaches (ops : Ops) (st : AppBuilder) : Prop :=
  runOps AppBuilder.new ops = Except.ok st

/-! ## Call predicates over build programs -/

/-- Does this one call register a unique of type `u` (`add_unique::<U>`)? -/
def isAddUniqueOp (u : TypeId) : Op → Bool
  | Op.addUnique t _ => t == u
  | _ => false

/-- Does this one call declare a unique dependency on `u`
(`depends_on_unique::<U>`)? -/
def isDepUniqueOp (u : TypeId) : Op → Bool
  | Op.dependsOnUnique t _ _ => t == u
  | _ => false

/-- Does this one call declare a unique dependency on `u` with reason `r`? -/
def isDepUniqueReasonOp (u : TypeId) (r : String) : Op → Bool
  | Op.dependsOnUnique t _ r' => t == u && r' == r
  | _ => false

/-- Does this one call enable update packing for `u` (`update_pack::<U>`)? -/
def isUpdatePackOp (u : TypeId) : Op → Bool
  | Op.updatePack t _ _ => t == u
  | _ => false

/-- Is this one call `add_plugin::<U>`? -/
def isAddPluginOp (u : TypeId) : Op → Bool
  | Op.addPlugin t _ _ => t == u
  | _ => false

mutual
/-- Does `p` hold of this call or of any call nested inside it (through
`add_plugin` bodies)? -/
def opAny (p : Op → Bool) : Op → Bool
  | Op.addPlugin t nm body => p (Op.addPlugin t nm body) || opsAny p body
  | o => p o
/-- Does `p` hold of any call in this program, nested calls included? -/
def opsAny (p : Op → Bool) : Ops → Bool
  | Ops.nil => false
  | Ops.cons o rest => opAny p o || opsAny p rest
end

/-- Is the reason `r` among the dependency reasons recorded for `u`? -/
def depReason (m : List (TypeId × List (PluginId × String))) (u : TypeId) (r : String) :
    Bool :=
  ((alistGet m u).getD []).any (fun pr => pr.2 == r)

/-- Flatten of the raw ordered stage list. -/
def flatL (l : List (String × List Sys)) : List Sys :=
  l.foldr (fun p acc => p.2 ++ acc) []

/-! ## The builder invariant -/

/-- Invariant maintained by every builder state reachable from
`AppBuilder.new`:
1.-3. every key of `track_uniques`, `track_unique_dependencies` and
  `track_added_plugins` has been interned into `track_type_names`;
4. the current plugin path has no duplicate key;
5.-6. `resets` holds exactly one `reset_update_pack` system, and the world
  storage was switched into update-pack mode exactly once, per key of
  `track_update_packed`;
7. stage workloads contain no `reset_update_pack` system;
8. no key on the current plugin path is recorded in `track_added_plugins`
  (a plugin enters the added set only when its `build` has returned and its
  key is popped). -/
def StInv (st : AppBuilder) : Prop :=
  (∀ u, alistContains st.track_uniques u = true →
      alistContains st.track_type_names u = true)
  ∧ (∀ u, alistContains st.track_unique_dependencies u = true →
      alistContains st.track_type_names u = true)
  ∧ (∀ u, alistContains st.track_added_plugins u = true →
      alistContains st.track_type_names u = true)
  ∧ st.track_current_plugin.Nodup
  ∧ (∀ u, st.resets.count (Sys.resetUpdatePack u)
      = (if alistContains st.track_update_packed u = true then 1 else 0))
  ∧ (∀ u, st.world_update_packed.count u
      = (if alistContains st.track_update_packed u = true then 1 else 0))
  ∧ (∀ u, st.stage_workloads.flattenStages.count (Sys.resetUpdatePack u) = 0)
  ∧ (∀ u, u ∈ st.track_current_plugin →
      alistContains st.track_added_plugins u = false)

/-- The state evolution facts established for one run step; `f p` stands for
"some executed call satisfies `p`". -/
def Evolves (f : (Op → Bool) → Bool) (st st' : AppBuilder) : Prop :=
  st'.track_current_plugin = st.track_current_plugin
  ∧ (∀ u, alistContains st.track_type_names u = true →
      alistContains st'.track_type_names u = true)
  ∧ (∀ u, alistContains st'.track_uniques u
      = (alistContains st.track_uniques u || f (isAddUniqueOp u)))
  ∧ (∀ u, alistContains st'.track_unique_dependencies u
      = (alistContains st.track_unique_dependencies u || f (isDepUniqueOp u)))
  ∧ (∀ u, alistContains st'.track_update_packed u
      = (alistContains st.track_update_packed u || f (isUpdatePackOp u)))
  ∧ (∀ u, alistContains st'.track_added_plugins u
      = (alistContains st.track_added_plugins u || f (isAddPluginOp u)))
  ∧ (∀ u r, depReason st'.track_unique_dependencies u r
      = (depReason st.track_unique_dependencies u r || f (isDepUniqueReasonOp u r)))
  ∧ (StInv st → StInv st')

/-! ## Concrete build programs and states used as witnesses -/

/-- An explicit reset system registered before `update_pack` is first called. -/
def opsC1 : Ops :=
  Ops.cons (Op.addResetSystem 0) (Ops.cons (Op.updatePack 5 "T" "r") Ops.nil)

/-- The builder state `opsC1` reaches. -/
def stC1 : AppBuilder :=
  { AppBuilder.new with
      resets := [Sys.user 0, Sys.resetUpdatePack 5]
      track_type_names := [(5, "T")]
      track_update_packed := [(5, [([], "r")])]
      world_update_packed := [5] }

/-- `update_pack::<T>` called twice with two different reasons. -/
def opsC6 : Ops :=
  Ops.cons (Op.updatePack 0 "T" "a") (Ops.cons (Op.updatePack 0 "T" "b") Ops.nil)

/-- The builder state `opsC6` reaches: both reasons are recorded, tracking
was enabled once, one reset system exists. -/
def stC6 : AppBuilder :=
  { AppBuilder.new with
      resets := [Sys.resetUpdatePack 0]
      track_type_names := [(0, "T")]
      track_update_packed := [(0, [([], "a"), ([], "b")])]
      world_update_packed := [0] }

/-- A plugin whose `build` declares a dependency on the plugin itself. -/
def opsC3 : Ops :=
  Ops.cons (Op.addPlugin 0 "T" (Ops.cons (Op.dependsOnPlugin 0 "T" "r") Ops.nil)) Ops.nil

/-- One plugin `A` added at top level. -/
def opsC4 : Ops := Ops.cons (Op.addPlugin 0 "A" Ops.nil) Ops.nil

/-- The builder state `opsC4` reaches. -/
def stC4 : AppBuilder :=
  { AppBuilder.new with
      track_added_plugins := [(0, [0])]
      track_type_names := [(0, "A")] }

/-- A mid-build state: plugin `A` (key 0) is currently on the nesting path. -/
def stC5 : AppBuilder :=
  { AppBuilder.new with
      track_current_plugin := [0]
      track_type_names := [(0, "A")] }

/-- A unique dependency on `U` that no plugin provides. -/
def opsC2a : Ops := Ops.cons (Op.dependsOnUnique 0 "U" "r") Ops.nil

/-- The builder state `opsC2a` reaches. -/
def stC2a : AppBuilder :=
  { AppBuilder.new with
      track_type_names := [(0, "U")]
      track_unique_dependencies := [(0, [([], "r")])] }

/-- A unique dependency on `U` that is also provided. -/
def opsC2b : Ops :=
  Ops.cons (Op.addUnique 0 "U") (Ops.cons (Op.dependsOnUnique 0 "U" "r") Ops.nil)

/-- The builder state `opsC2b` reaches. -/
def stC2b : AppBuilder :=
  { AppBuilder.new with
      track_type_names := [(0, "U")]
      track_uniques := [(0, [[]])]
      track_unique_dependencies := [(0, [([], "r")])] }

/-- The unique `U` provided twice (two providers for one singleton). -/
def opsC7 : Ops := Ops.cons (Op.addUnique 0 "U") (Ops.cons (Op.addUnique 0 "U") Ops.nil)

/-- The builder state `opsC7` reaches. -/
def stC7 : AppBuilder :=
  { AppBuilder.new with
      track_type_names := [(0, "U")]
      track_uniques := [(0, [[], []])] }

/-- A builder state holding stage `default` with systems 1, 2 and a later
stage `s2` with system 3, plus one reset system. -/
def stC8 : AppBuilder :=
  { AppBuilder.new with
      stage_workloads := ⟨[(DEFAULT_STAGE, [Sys.user 1, Sys.user 2]), ("s2", [Sys.user 3])]⟩
      resets := [Sys.user 9] }

/-- A provided unique and a unique dependency, for the name-table invariant. -/
def opsC10 : Ops :=
  Ops.cons (Op.addUnique 1 "V") (Ops.cons (Op.dependsOnUnique 1 "V" "rv") Ops.nil)

/-- The builder state `opsC10` reaches. -/
def stC10 : AppBuilder :=
  { AppBuilder.new with
      track_type_names := [(1, "V")]
      track_uniques := [(1, [[]])]
      track_unique_dependencies := [(1, [([], "rv")])] }

/-- The state produced by running `update_pack` for a fresh type 3 on a new
builder. -/
def stUP3 : AppBuilder :=
  { AppBuilder.new with
      resets := [Sys.resetUpdatePack 3]
      track_type_names := [(3, "X")]
      track_update_packed := [(3, [([], "rx")])]
      world_update_packed := [3] }

/-! ## Association list lemmas -/

/-- Sanity: `AppBuilder.new` is exactly `empty` with `add_stage DEFAULT_STAGE`
applied (the stage addition on the empty assembler cannot fail). -/
theorem new_default_stage : Workloads.add_stage Workloads.new DEFAULT_STAGE
    = Except.ok AppBuilder.new.stage_workloads := rfl


theorem alistContains_cons {α : Type} (k' : TypeId) (v : α) (m : List (TypeId × α))
    (u : TypeId) : alistContains ((k', v) :: m) u = ((k' == u) || alistContains m u) := by
  simp [alistContains]

theorem alistContains_append {α : Type} (m m2 : List (TypeId × α)) (u : TypeId) :
    alistContains (m ++ m2) u = (alistContains m u || alistContains m2 u) := by
  simp [alistContains, List.any_append]

theorem alistGet_eq_none_of_not_contains {α : Type} (m : List (TypeId × α)) (u : TypeId)
    (h : alistContains m u = false) : alistGet m u = none := by
  induction m with
  | nil => rfl
  | cons e rest ih =>
    rw [show e = (e.1, e.2) from rfl, alistContains_cons] at h
    simp only [Bool.or_eq_false_iff] at h
    simp [alistGet, List.find?, h.1, alistGet] at ih ⊢
    exact ih h.2

theorem alistGet_isSome_of_contains {α : Type} (m : List (TypeId × α)) (u : TypeId)
    (h : alistContains m u = true) : ∃ v, alistGet m u = some v := by
  induction m with
  | nil => simp [alistContains] at h
  | cons e rest ih =>
    rw [show e = (e.1, e.2) from rfl, alistContains_cons] at h
    by_cases he : e.1 == u
    · refine ⟨e.2, ?_⟩
      simp [alistGet, List.find?, he]
    · simp only [he, Bool.false_or] at h
      obtain ⟨v, hv⟩ := ih h
      refine ⟨v, ?_⟩
      simp only [alistGet, List.find?, he] at hv ⊢
      exact hv

theorem alistContains_of_get {α : Type} (m : List (TypeId × α)) (u : TypeId) (v : α)
    (h : alistGet m u = some v) : alistContains m u = true := by
  by_cases hc : alistContains m u
  · exact hc
  · rw [alistGet_eq_none_of_not_contains m u (by simpa using hc)] at h
    cases h

theorem alistGet_mem {α : Type} (m : List (TypeId × α)) (u : TypeId) (v : α)
    (h : alistGet m u = some v) : (u, v) ∈ m := by
  induction m with
  | nil => cases h
  | cons e rest ih =>
    simp only [alistGet, List.find?] at h
    by_cases he : e.1 == u
    · simp only [he, Option.map_some] at h
      have h1 : e.1 = u := by simpa using he
      have h2 : e.2 = v := by simpa using h
      have : e = (u, v) := by
        cases e
        simp_all
      rw [this] at *
      exact List.mem_cons_self _ _
    · simp only [he] at h
      right
      exact ih h

theorem mem_alistContains {α : Type} (m : List (TypeId × α)) (e : TypeId × α)
    (h : e ∈ m) : alistContains m e.1 = true := by
  simp only [alistContains, List.any_eq_true]
  exact ⟨e, h, by simp⟩

theorem alistInsertIfAbsent_of_contains {α : Type} (m : List (TypeId × α)) (k : TypeId)
    (v : α) (h : alistContains m k = true) : alistInsertIfAbsent m k v = m := by
  simp [alistInsertIfAbsent, h]

theorem alistContains_insertIfAbsent {α : Type} (m : List (TypeId × α)) (k : TypeId)
    (v : α) (u : TypeId) :
    alistContains (alistInsertIfAbsent m k v) u = (alistContains m u || (k == u)) := by
  by_cases h : alistContains m k
  · simp only [alistInsertIfAbsent, h, if_true]
    by_cases hk : k == u
    · have : k = u := by simpa using hk
      subst this
      simp [h]
    · simp [hk]
  · simp only [alistInsertIfAbsent, h]
    simp [alistContains_append, alistContains_cons, alistContains]

theorem alistContains_insertIfAbsent_mono {α : Type} (m : List (TypeId × α)) (k : TypeId)
    (v : α) (u : TypeId) (h : alistContains m u = true) :
    alistContains (alistInsertIfAbsent m k v) u = true := by
  rw [alistContains_insertIfAbsent, h, Bool.true_or]

theorem alistContains_push {α : Type} (m : List (TypeId × List α)) (k : TypeId) (v : α)
    (u : TypeId) : alistContains (alistPush m k v) u = (alistContains m u || (k == u)) := by
  induction m with
  | nil =>
    rw [show alistPush ([] : List (TypeId × List α)) k v = [(k, [v])] from rfl,
      alistContains_cons]
    simp [alistContains]
  | cons e rest ih =>
    cases e with
    | mk k' l =>
      by_cases hk : k' = k
      · rw [show alistPush ((k', l) :: rest) k v = (k', l ++ [v]) :: rest from by
          simp [alistPush, hk], alistContains_cons, alistContains_cons, hk]
        by_cases hu : (k == u) = true
        · simp [hu]
        · simp [Bool.eq_false_iff.mpr hu]
      · rw [show alistPush ((k', l) :: rest) k v = (k', l) :: alistPush rest k v from by
          simp [alistPush, hk], alistContains_cons, alistContains_cons, ih, Bool.or_assoc]

theorem alistContains_insert {α : Type} (m : List (TypeId × α)) (k : TypeId) (v : α)
    (u : TypeId) : alistContains (alistInsert m k v) u = (alistContains m u || (k == u)) := by
  induction m with
  | nil =>
    rw [show alistInsert ([] : List (TypeId × α)) k v = [(k, v)] from rfl, alistContains_cons]
    simp [alistContains]
  | cons e rest ih =>
    cases e with
    | mk k' w =>
      by_cases hk : k' = k
      · rw [show alistInsert ((k', w) :: rest) k v = (k, v) :: rest from by
          simp [alistInsert, hk], alistContains_cons, alistContains_cons, hk]
        by_cases hu : (k == u) = true
        · simp [hu]
        · simp [Bool.eq_false_iff.mpr hu]
      · rw [show alistInsert ((k', w) :: rest) k v = (k', w) :: alistInsert rest k v from by
          simp [alistInsert, hk], alistContains_cons, alistContains_cons, ih, Bool.or_assoc]

theorem alistGet_push_self {α : Type} (m : List (TypeId × List α)) (k : TypeId) (v : α) :
    alistGet (alistPush m k v) k = some ((alistGet m k).getD [] ++ [v]) := by
  induction m with
  | nil => simp [alistPush, alistGet, List.find?]
  | cons e rest ih =>
    cases e with
    | mk k' l =>
      by_cases hk : k' = k
      · subst hk
        simp [alistPush, alistGet, List.find?]
      · have hk' : (k' == k) = false := by simpa using hk
        simp only [alistPush, if_neg hk, alistGet, List.find?, hk'] at ih ⊢
        exact ih

theorem alistGet_push_ne {α : Type} (m : List (TypeId × List α)) (k : TypeId) (v : α)
    (u : TypeId) (h : k ≠ u) : alistGet (alistPush m k v) u = alistGet m u := by
  have hku : (k == u) = false := by simpa using h
  induction m with
  | nil =>
    simp [alistPush, alistGet, List.find?, hku]
  | cons e rest ih =>
    cases e with
    | mk k' l =>
      by_cases hk : k' = k
      · rw [show alistPush ((k', l) :: rest) k v = (k', l ++ [v]) :: rest from by
          simp [alistPush, hk]]
        have hk'u : (k' == u) = false := by rw [hk]; exact hku
        simp [alistGet, List.find?, hk'u]
      · rw [show alistPush ((k', l) :: rest) k v = (k', l) :: alistPush rest k v from by
          simp [alistPush, hk]]
        by_cases hu : (k' == u) = true
        · simp [alistGet, List.find?, hu]
        · have hu' : (k' == u) = false := Bool.eq_false_iff.mpr hu
          simp only [alistGet, List.find?, hu', cond_false] at ih ⊢
          exact ih

theorem alistGet_insert_ne {α : Type} (m : List (TypeId × α)) (k : TypeId) (v : α)
    (u : TypeId) (h : k ≠ u) : alistGet (alistInsert m k v) u = alistGet m u := by
  have hku : (k == u) = false := by simpa using h
  induction m with
  | nil =>
    simp [alistInsert, alistGet, List.find?, hku]
  | cons e rest ih =>
    cases e with
    | mk k' w =>
      by_cases hk : k' = k
      · rw [show alistInsert ((k', w) :: rest) k v = (k, v) :: rest from by
          simp [alistInsert, hk]]
        have hk'u : (k' == u) = false := by rw [hk]; exact hku
        simp [alistGet, List.find?, hku, hk'u]
      · rw [show alistInsert ((k', w) :: rest) k v = (k', w) :: alistInsert rest k v from by
          simp [alistInsert, hk]]
        by_cases hu : (k' == u) = true
        · simp [alistGet, List.find?, hu]
        · have hu' : (k' == u) = false := Bool.eq_false_iff.mpr hu
          simp only [alistGet, List.find?, hu', cond_false] at ih ⊢
          exact ih

theorem alistGet_remove_ne {α : Type} (m : List (TypeId × α)) (k : TypeId) (u : TypeId)
    (h : k ≠ u) : alistGet (alistRemove m k) u = alistGet m u := by
  induction m with
  | nil => rfl
  | cons e rest ih =>
    cases e with
    | mk k' w =>
      by_cases hk : k' = k
      · subst hk
        have hu : (k' == u) = false := by simpa using h
        simp [alistRemove, alistGet, List.find?, hu] at ih ⊢
        exact ih
      · have hk' : (k' == k) = false := by simpa using hk
        simp only [alistRemove, List.filter, hk', Bool.not_false] at ih ⊢
        by_cases hu : k' == u
        · simp [alistGet, List.find?, hu]
        · simp only [alistGet, List.find?, hu, cond_false] at ih ⊢
          exact ih

theorem mem_alistRemove {α : Type} (m : List (TypeId × α)) (k : TypeId) (e : TypeId × α)
    (h : e ∈ alistRemove m k) : e ∈ m ∧ e.1 ≠ k := by
  simp only [alistRemove, List.mem_filter, Bool.not_eq_eq_eq_not, Bool.not_true] at h
  exact ⟨h.1, by simpa using h.2⟩

theorem flatL_eq (w : Workloads) : w.flattenStages = flatL w.ordered := rfl

theorem flatL_append (l l2 : List (String × List Sys)) :
    flatL (l ++ l2) = flatL l ++ flatL l2 := by
  induction l with
  | nil => rfl
  | cons e rest ih =>
    show e.2 ++ flatL (rest ++ l2) = (e.2 ++ flatL rest) ++ flatL l2
    rw [ih, List.append_assoc]

theorem stageAppend_count (l : List (String × List Sys)) (nm : String) (s : Sys)
    (l' : List (String × List Sys)) (h : stageAppend l nm s = some l') (x : Sys) :
    (flatL l').count x = (flatL l).count x + [s].count x := by
  induction l generalizing l' with
  | nil => cases h
  | cons e rest ih =>
    cases e with
    | mk n li =>
      by_cases hn : n = nm
      · rw [show stageAppend ((n, li) :: rest) nm s = some ((n, li ++ [s]) :: rest) from by
          simp [stageAppend, hn]] at h
        cases h
        simp [flatL, List.foldr, List.count_append, List.count_cons, List.count_singleton']
        omega
      · rw [show stageAppend ((n, li) :: rest) nm s
            = (stageAppend rest nm s).map (fun r => (n, li) :: r) from by
          simp [stageAppend, hn]] at h
        cases hr : stageAppend rest nm s with
        | none => rw [hr] at h; cases h
        | some r =>
          rw [hr] at h
          simp only [Option.map_some', Option.some.injEq] at h
          subst h
          have := ih r hr
          simp [flatL, List.foldr, List.count_append, List.count_cons,
            List.count_singleton'] at this ⊢
          omega

theorem inv_new : StInv AppBuilder.new := by
  refine ⟨?_, ?_, ?_, ?_, ?_, ?_, ?_, ?_⟩
  · intro u h
    simp [AppBuilder.new, AppBuilder.empty, alistContains] at h
  · intro u h
    simp [AppBuilder.new, AppBuilder.empty, alistContains] at h
  · intro u h
    simp [AppBuilder.new, AppBuilder.empty, alistContains] at h
  · exact List.nodup_nil
  · intro u
    simp [AppBuilder.new, AppBuilder.empty, alistContains]
  · intro u
    simp [AppBuilder.new, AppBuilder.empty, alistContains]
  · intro u
    simp [AppBuilder.new, AppBuilder.empty, Workloads.flattenStages]
  · intro u hu
    simp [AppBuilder.new, AppBuilder.empty] at hu

/-! ## Unfolding equations for the interpreter -/

theorem runOps_nil_eq (st : AppBuilder) : runOps st Ops.nil = Except.ok st := rfl

theorem runOps_cons_eq (st : AppBuilder) (o : Op) (rest : Ops) :
    runOps st (Ops.cons o rest) = (runOp st o).bind (fun st1 => runOps st1 rest) := rfl

theorem runOp_addSystem_eq (st : AppBuilder) (n : Nat) :
    runOp st (Op.addSystem n)
      = (st.stage_workloads.add_system_to_stage DEFAULT_STAGE (Sys.user n)).map
          (fun w => { st with stage_workloads := w }) := rfl

theorem runOp_addResetSystem_eq (st : AppBuilder) (n : Nat) :
    runOp st (Op.addResetSystem n)
      = Except.ok { st with resets := st.resets ++ [Sys.user n] } := rfl

theorem runOp_addUnique_eq (st : AppBuilder) (t : TypeId) (nm : String) :
    runOp st (Op.addUnique t nm)
      = Except.ok { tracked_type_id_of st t nm with
          track_uniques := alistPush st.track_uniques t st.track_current_plugin } := rfl

theorem runOp_dependsOnUnique_eq (st : AppBuilder) (t : TypeId) (nm r : String) :
    runOp st (Op.dependsOnUnique t nm r)
      = Except.ok { tracked_type_id_of st t nm with
          track_unique_dependencies :=
            alistPush st.track_unique_dependencies t (st.track_current_plugin, r) } := rfl

theorem runOp_dependsOnPlugin_eq (st : AppBuilder) (t : TypeId) (nm r : String) :
    runOp st (Op.dependsOnPlugin t nm r)
      = (if alistContains st.track_added_plugins t then
          Except.ok (tracked_type_id_of st t nm)
        else
          Except.error
            (BuildError.missingPluginDependency st.track_current_plugin nm r)) := rfl

theorem runOp_updatePack_eq (st : AppBuilder) (t : TypeId) (nm r : String) :
    runOp st (Op.updatePack t nm r)
      = (if alistContains st.track_update_packed t then
          Except.ok { tracked_type_id_of st t nm with
            track_update_packed :=
              alistPush st.track_update_packed t (st.track_current_plugin, r) }
        else
          Except.ok { tracked_type_id_of st t nm with
            track_update_packed :=
              alistInsert st.track_update_packed t [(st.track_current_plugin, r)]
            world_update_packed := st.world_update_packed ++ [t]
            resets := st.resets ++ [Sys.resetUpdatePack t] }) := rfl

theorem runOp_addStage_eq (st : AppBuilder) (nm : String) :
    runOp st (Op.addStage nm)
      = (st.stage_workloads.add_stage nm).map
          (fun w => { st with stage_workloads := w }) := rfl

theorem runOp_addPlugin_eq (st : AppBuilder) (t : TypeId) (nm : String) (body : Ops) :
    runOp st (Op.addPlugin t nm body)
      = (match alistGet st.track_added_plugins t with
        | some prev =>
            Except.error (BuildError.duplicatePlugin st.track_current_plugin prev)
        | none =>
            if t ∈ st.track_current_plugin then
              Except.error (BuildError.pluginCycle st.track_current_plugin
                ((alistGet (tracked_type_id_of st t nm).track_type_names t).getD ""))
            else
              (runOps (pluginEntryState st t nm) body).bind (fun st3 =>
                Except.ok { st3 with
                  track_added_plugins :=
                    alistInsert st3.track_added_plugins t st3.track_current_plugin
                  track_current_plugin := st3.track_current_plugin.dropLast })) := rfl

/-! ## Per-operation evolution lemmas -/

theorem alistContains_insertIfAbsent_self {α : Type} (m : List (TypeId × α)) (k : TypeId)
    (v : α) : alistContains (alistInsertIfAbsent m k v) k = true := by
  rw [alistContains_insertIfAbsent]
  simp

theorem depReason_push (m : List (TypeId × List (PluginId × String))) (t : TypeId)
    (pr : PluginId × String) (u : TypeId) (r : String) :
    depReason (alistPush m t pr) u r = (depReason m u r || (t == u && pr.2 == r)) := by
  by_cases h : t = u
  · subst h
    rw [depReason, alistGet_push_self]
    simp [depReason, List.any_append]
  · rw [depReason, alistGet_push_ne m t pr u h]
    have ht : (t == u) = false := by simpa using h
    simp [depReason, ht]

theorem depReason_insert_new (m : List (TypeId × List (PluginId × String))) (t : TypeId)
    (pr : PluginId × String) (u : TypeId) (r : String)
    (hnc : alistContains m t = false) :
    depReason (alistInsert m t [pr]) u r = (depReason m u r || (t == u && pr.2 == r)) := by
  by_cases h : t = u
  · subst h
    have hget : alistGet m t = none := alistGet_eq_none_of_not_contains m t hnc
    have : alistGet (alistInsert m t [pr]) t = some [pr] := by
      induction m with
      | nil => simp [alistInsert, alistGet, List.find?]
      | cons e rest ih =>
        cases e with
        | mk k' w =>
          rw [alistContains_cons] at hnc
          simp only [Bool.or_eq_false_iff] at hnc
          have hk : k' ≠ t := by simpa using hnc.1
          rw [show alistInsert ((k', w) :: rest) t [pr]
              = (k', w) :: alistInsert rest t [pr] from by simp [alistInsert, hk]]
          have hk' : (k' == t) = false := by simpa using hk
          simp only [alistGet, List.find?, hk', cond_false] at ih ⊢
          rw [alistContains] at hnc
          exact ih hnc.2 (by
            simp only [alistGet, List.find?, hk', cond_false] at hget
            exact hget)
    rw [depReason, this, depReason, hget]
    simp
  · rw [depReason, alistGet_insert_ne m t [pr] u h]
    have ht : (t == u) = false := by simpa using h
    simp [depReason, ht]

theorem evolves_addResetSystem (st st' : AppBuilder) (n : Nat)
    (h : runOp st (Op.addResetSystem n) = Except.ok st') :
    Evolves (fun p => p (Op.addResetSystem n)) st st' := by
  rw [runOp_addResetSystem_eq] at h
  cases h
  refine ⟨rfl, fun u h => h, ?_, ?_, ?_, ?_, ?_, ?_⟩
  · intro u
    simp [isAddUniqueOp, tracked_type_id_of]
  · intro u
    simp [isDepUniqueOp, tracked_type_id_of]
  · intro u
    simp [isUpdatePackOp, tracked_type_id_of]
  · intro u
    simp [isAddPluginOp, tracked_type_id_of]
  · intro u r
    simp [isDepUniqueReasonOp, tracked_type_id_of]
  · intro hInv
    obtain ⟨h1, h2, h3, h4, h5, h6, h7, h8⟩ := hInv
    refine ⟨h1, h2, h3, h4, ?_, h6, h7, h8⟩
    intro u
    simp [List.count_append, List.count_singleton', h5 u]

theorem evolves_addSystem (st st' : AppBuilder) (n : Nat)
    (h : runOp st (Op.addSystem n) = Except.ok st') :
    Evolves (fun p => p (Op.addSystem n)) st st' := by
  rw [runOp_addSystem_eq, Workloads.add_system_to_stage] at h
  cases hs : stageAppend st.stage_workloads.ordered DEFAULT_STAGE (Sys.user n) with
  | none =>
    rw [hs] at h
    cases h
  | some l' =>
    rw [hs] at h
    simp only [Except.map] at h
    cases h
    refine ⟨rfl, fun u h => h, ?_, ?_, ?_, ?_, ?_, ?_⟩
    · intro u
      simp [isAddUniqueOp, tracked_type_id_of]
    · intro u
      simp [isDepUniqueOp, tracked_type_id_of]
    · intro u
      simp [isUpdatePackOp, tracked_type_id_of]
    · intro u
      simp [isAddPluginOp, tracked_type_id_of]
    · intro u r
      simp [isDepUniqueReasonOp, tracked_type_id_of]
    · intro hInv
      obtain ⟨h1, h2, h3, h4, h5, h6, h7, h8⟩ := hInv
      refine ⟨h1, h2, h3, h4, h5, h6, ?_, h8⟩
      intro u
      have := stageAppend_count st.stage_workloads.ordered DEFAULT_STAGE (Sys.user n) l' hs
        (Sys.resetUpdatePack u)
      rw [flatL_eq] at h7 ⊢
      show (flatL l').count (Sys.resetUpdatePack u) = 0
      rw [this, h7 u]
      simp [List.count_singleton']

theorem evolves_addStage (st st' : AppBuilder) (nm : String)
    (h : runOp st (Op.addStage nm) = Except.ok st') :
    Evolves (fun p => p (Op.addStage nm)) st st' := by
  rw [runOp_addStage_eq, Workloads.add_stage] at h
  by_cases hdup : st.stage_workloads.ordered.any (fun p => p.1 == nm)
  · rw [if_pos hdup] at h
    cases h
  · rw [if_neg hdup] at h
    simp only [Except.map] at h
    cases h
    refine ⟨rfl, fun u h => h, ?_, ?_, ?_, ?_, ?_, ?_⟩
    · intro u
      simp [isAddUniqueOp, tracked_type_id_of]
    · intro u
      simp [isDepUniqueOp, tracked_type_id_of]
    · intro u
      simp [isUpdatePackOp, tracked_type_id_of]
    · intro u
      simp [isAddPluginOp, tracked_type_id_of]
    · intro u r
      simp [isDepUniqueReasonOp, tracked_type_id_of]
    · intro hInv
      obtain ⟨h1, h2, h3, h4, h5, h6, h7, h8⟩ := hInv
      refine ⟨h1, h2, h3, h4, h5, h6, ?_, h8⟩
      intro u
      rw [flatL_eq] at h7 ⊢
      show (flatL (st.stage_workloads.ordered ++ [(nm, [])])).count (Sys.resetUpdatePack u) = 0
      rw [flatL_append, List.count_append, h7 u]
      simp [flatL]

theorem evolves_addUnique (st st' : AppBuilder) (t : TypeId) (nm : String)
    (h : runOp st (Op.addUnique t nm) = Except.ok st') :
    Evolves (fun p => p (Op.addUnique t nm)) st st' := by
  rw [runOp_addUnique_eq] at h
  cases h
  refine ⟨rfl, ?_, ?_, ?_, ?_, ?_, ?_, ?_⟩
  · intro u hu
    exact alistContains_insertIfAbsent_mono _ t nm u hu
  · intro u
    show alistContains (alistPush st.track_uniques t st.track_current_plugin) u = _
    rw [alistContains_push]
    simp [isAddUniqueOp, tracked_type_id_of]
  · intro u
    simp [isDepUniqueOp, tracked_type_id_of]
  · intro u
    simp [isUpdatePackOp, tracked_type_id_of]
  · intro u
    simp [isAddPluginOp, tracked_type_id_of]
  · intro u r
    simp [isDepUniqueReasonOp, tracked_type_id_of]
  · intro hInv
    obtain ⟨h1, h2, h3, h4, h5, h6, h7, h8⟩ := hInv
    refine ⟨?_, ?_, ?_, h4, h5, h6, h7, h8⟩
    · intro u hu
      show alistContains (alistInsertIfAbsent st.track_type_names t nm) u = true
      rw [alistContains_push] at hu
      rw [alistContains_insertIfAbsent]
      rcases Bool.or_eq_true_iff.mp hu with hc | he
      · rw [h1 u hc, Bool.true_or]
      · rw [he, Bool.or_true]
    · intro u hu
      exact alistContains_insertIfAbsent_mono _ t nm u (h2 u hu)
    · intro u hu
      exact alistContains_insertIfAbsent_mono _ t nm u (h3 u hu)

theorem evolves_dependsOnUnique (st st' : AppBuilder) (t : TypeId) (nm r0 : String)
    (h : runOp st (Op.dependsOnUnique t nm r0) = Except.ok st') :
    Evolves (fun p => p (Op.dependsOnUnique t nm r0)) st st' := by
  rw [runOp_dependsOnUnique_eq] at h
  cases h
  refine ⟨rfl, ?_, ?_, ?_, ?_, ?_, ?_, ?_⟩
  · intro u hu
    exact alistContains_insertIfAbsent_mono _ t nm u hu
  · intro u
    simp [isAddUniqueOp, tracked_type_id_of]
  · intro u
    show alistContains (alistPush st.track_unique_dependencies t (st.track_current_plugin, r0)) u = _
    rw [alistContains_push]
    simp [isDepUniqueOp, tracked_type_id_of]
  · intro u
    simp [isUpdatePackOp, tracked_type_id_of]
  · intro u
    simp [isAddPluginOp, tracked_type_id_of]
  · intro u r
    show depReason (alistPush st.track_unique_dependencies t (st.track_current_plugin, r0)) u r = _
    rw [depReason_push]
    simp [isDepUniqueReasonOp, tracked_type_id_of]
  · intro hInv
    obtain ⟨h1, h2, h3, h4, h5, h6, h7, h8⟩ := hInv
    refine ⟨?_, ?_, ?_, h4, h5, h6, h7, h8⟩
    · intro u hu
      exact alistContains_insertIfAbsent_mono _ t nm u (h1 u hu)
    · intro u hu
      show alistContains (alistInsertIfAbsent st.track_type_names t nm) u = true
      rw [alistContains_push] at hu
      rw [alistContains_insertIfAbsent]
      rcases Bool.or_eq_true_iff.mp hu with hc | he
      · rw [h2 u hc, Bool.true_or]
      · rw [he, Bool.or_true]
    · intro u hu
      exact alistContains_insertIfAbsent_mono _ t nm u (h3 u hu)

theorem evolves_dependsOnPlugin (st st' : AppBuilder) (t : TypeId) (nm r0 : String)
    (h : runOp st (Op.dependsOnPlugin t nm r0) = Except.ok st') :
    Evolves (fun p => p (Op.dependsOnPlugin t nm r0)) st st' := by
  rw [runOp_dependsOnPlugin_eq] at h
  by_cases hc : alistContains st.track_added_plugins t
  · rw [if_pos hc] at h
    cases h
    refine ⟨rfl, ?_, ?_, ?_, ?_, ?_, ?_, ?_⟩
    · intro u hu
      exact alistContains_insertIfAbsent_mono _ t nm u hu
    · intro u
      simp [isAddUniqueOp, tracked_type_id_of]
    · intro u
      simp [isDepUniqueOp, tracked_type_id_of]
    · intro u
      simp [isUpdatePackOp, tracked_type_id_of]
    · intro u
      simp [isAddPluginOp, tracked_type_id_of]
    · intro u r
      simp [isDepUniqueReasonOp, tracked_type_id_of]
    · intro hInv
      obtain ⟨h1, h2, h3, h4, h5, h6, h7, h8⟩ := hInv
      refine ⟨?_, ?_, ?_, h4, h5, h6, h7, h8⟩
      · intro u hu
        exact alistContains_insertIfAbsent_mono _ t nm u (h1 u hu)
      · intro u hu
        exact alistContains_insertIfAbsent_mono _ t nm u (h2 u hu)
      · intro u hu
        exact alistContains_insertIfAbsent_mono _ t nm u (h3 u hu)
  · rw [if_neg hc] at h
    cases h

theorem evolves_updatePack (st st' : AppBuilder) (t : TypeId) (nm r0 : String)
    (h : runOp st (Op.updatePack t nm r0) = Except.ok st') :
    Evolves (fun p => p (Op.updatePack t nm r0)) st st' := by
  rw [runOp_updatePack_eq] at h
  by_cases hc : alistContains st.track_update_packed t
  · rw [if_pos hc] at h
    cases h
    refine ⟨rfl, ?_, ?_, ?_, ?_, ?_, ?_, ?_⟩
    · intro u hu
      exact alistContains_insertIfAbsent_mono _ t nm u hu
    · intro u
      simp [isAddUniqueOp, tracked_type_id_of]
    · intro u
      simp [isDepUniqueOp, tracked_type_id_of]
    · intro u
      show alistContains (alistPush st.track_update_packed t (st.track_current_plugin, r0)) u = _
      rw [alistContains_push]
      simp [isUpdatePackOp, tracked_type_id_of]
    · intro u
      simp [isAddPluginOp, tracked_type_id_of]
    · intro u r
      simp [isDepUniqueReasonOp, tracked_type_id_of]
    · intro hInv
      obtain ⟨h1, h2, h3, h4, h5, h6, h7, h8⟩ := hInv
      have hkeys : ∀ u, alistContains
          (alistPush st.track_update_packed t (st.track_current_plugin, r0)) u
          = alistContains st.track_update_packed u := by
        intro u
        rw [alistContains_push]
        by_cases htu : t = u
        · subst htu
          simp [hc]
        · have : (t == u) = false := by simpa using htu
          simp [this]
      refine ⟨?_, ?_, ?_, h4, ?_, ?_, h7, h8⟩
      · intro u hu
        exact alistContains_insertIfAbsent_mono _ t nm u (h1 u hu)
      · intro u hu
        exact alistContains_insertIfAbsent_mono _ t nm u (h2 u hu)
      · intro u hu
        exact alistContains_insertIfAbsent_mono _ t nm u (h3 u hu)
      · intro u
        show st.resets.count (Sys.resetUpdatePack u) = _
        rw [hkeys u]
        exact h5 u
      · intro u
        show st.world_update_packed.count u = _
        rw [hkeys u]
        exact h6 u
  · rw [if_neg hc] at h
    cases h
    have hbc : alistContains st.track_update_packed t = false := by
      simpa using hc
    have hkeys : ∀ u, alistContains
        (alistInsert st.track_update_packed t [(st.track_current_plugin, r0)]) u
        = (alistContains st.track_update_packed u || (t == u)) :=
      fun u => alistContains_insert st.track_update_packed t _ u
    refine ⟨rfl, ?_, ?_, ?_, ?_, ?_, ?_, ?_⟩
    · intro u hu
      exact alistContains_insertIfAbsent_mono _ t nm u hu
    · intro u
      simp [isAddUniqueOp, tracked_type_id_of]
    · intro u
      simp [isDepUniqueOp, tracked_type_id_of]
    · intro u
      show alistContains (alistInsert st.track_update_packed t [(st.track_current_plugin, r0)]) u = _
      rw [hkeys u]
      simp [isUpdatePackOp, tracked_type_id_of]
    · intro u
      simp [isAddPluginOp, tracked_type_id_of]
    · intro u r
      simp [isDepUniqueReasonOp, tracked_type_id_of]
    · intro hInv
      obtain ⟨h1, h2, h3, h4, h5, h6, h7, h8⟩ := hInv
      refine ⟨?_, ?_, ?_, h4, ?_, ?_, h7, h8⟩
      · intro u hu
        exact alistContains_insertIfAbsent_mono _ t nm u (h1 u hu)
      · intro u hu
        exact alistContains_insertIfAbsent_mono _ t nm u (h2 u hu)
      · intro u hu
        exact alistContains_insertIfAbsent_mono _ t nm u (h3 u hu)
      · intro u
        show (st.resets ++ [Sys.resetUpdatePack t]).count (Sys.resetUpdatePack u) = _
        rw [List.count_append, hkeys u, h5 u]
        by_cases htu : t = u
        · subst htu
          simp [hbc, List.count_singleton']
        · have hne : (t == u) = false := by simpa using htu
          have hs : (Sys.resetUpdatePack t == Sys.resetUpdatePack u) = false := by
            simpa using htu
          simp [hne, List.count_singleton', hs]
          exact htu
      · intro u
        show (st.world_update_packed ++ [t]).count u = _
        rw [List.count_append, hkeys u, h6 u]
        by_cases htu : t = u
        · subst htu
          simp [hbc, List.count_singleton']
        · have hne : (t == u) = false := by simpa using htu
          simp [hne, List.count_singleton', htu]

theorem alistContains_eq_false_of_get_none {α : Type} (m : List (TypeId × α)) (u : TypeId)
    (h : alistGet m u = none) : alistContains m u = false := by
  by_cases hc : alistContains m u = true
  · obtain ⟨v, hv⟩ := alistGet_isSome_of_contains m u hc
    rw [h] at hv
    cases hv
  · simpa using hc

theorem evolves_comp (f g : (Op → Bool) → Bool) (st st1 st2 : AppBuilder)
    (hfg1 : Evolves f st st1) (hfg2 : Evolves g st1 st2) :
    Evolves (fun p => f p || g p) st st2 := by
  obtain ⟨a1, b1, c1, d1, e1, f1, g1, i1⟩ := hfg1
  obtain ⟨a2, b2, c2, d2, e2, f2, g2, i2⟩ := hfg2
  refine ⟨a2.trans a1, fun u h => b2 u (b1 u h), ?_, ?_, ?_, ?_, ?_, fun hI => i2 (i1 hI)⟩
  · intro u
    rw [c2 u, c1 u, Bool.or_assoc]
  · intro u
    rw [d2 u, d1 u, Bool.or_assoc]
  · intro u
    rw [e2 u, e1 u, Bool.or_assoc]
  · intro u
    rw [f2 u, f1 u, Bool.or_assoc]
  · intro u r
    rw [g2 u r, g1 u r, Bool.or_assoc]

theorem runOp_addPlugin_ok (st : AppBuilder) (t : TypeId) (nm : String) (body : Ops)
    (st' : AppBuilder) (h : runOp st (Op.addPlugin t nm body) = Except.ok st') :
    alistGet st.track_added_plugins t = none ∧ t ∉ st.track_current_plugin ∧
      ∃ st3, runOps (pluginEntryState st t nm) body = Except.ok st3 ∧
        st' = { st3 with
          track_added_plugins :=
            alistInsert st3.track_added_plugins t st3.track_current_plugin
          track_current_plugin := st3.track_current_plugin.dropLast } := by
  rw [runOp_addPlugin_eq] at h
  cases hg : alistGet st.track_added_plugins t with
  | some prev =>
    rw [hg] at h
    cases h
  | none =>
    rw [hg] at h
    have h2 : (if t ∈ st.track_current_plugin then
        Except.error (BuildError.pluginCycle st.track_current_plugin
          ((alistGet (tracked_type_id_of st t nm).track_type_names t).getD ""))
      else
        (runOps (pluginEntryState st t nm) body).bind (fun st3 =>
          Except.ok { st3 with
            track_added_plugins :=
              alistInsert st3.track_added_plugins t st3.track_current_plugin
            track_current_plugin := st3.track_current_plugin.dropLast }))
        = Except.ok st' := h
    by_cases hmem : t ∈ st.track_current_plugin
    · rw [if_pos hmem] at h2
      cases h2
    · rw [if_neg hmem] at h2
      refine ⟨rfl, hmem, ?_⟩
      cases hr : runOps (pluginEntryState st t nm) body with
      | error e =>
        rw [hr] at h2
        cases h2
      | ok st3 =>
        rw [hr] at h2
        have h3 : Except.ok { st3 with
            track_added_plugins :=
              alistInsert st3.track_added_plugins t st3.track_current_plugin
            track_current_plugin := st3.track_current_plugin.dropLast }
            = Except.ok st' := h2
        cases h3
        exact ⟨st3, rfl, rfl⟩

mutual
theorem runOp_evolves (st : AppBuilder) (op : Op) (st' : AppBuilder)
    (h : runOp st op = Except.ok st') : Evolves (fun p => opAny p op) st st' := by
  cases op with
  | addSystem n => exact evolves_addSystem st st' n h
  | addResetSystem n => exact evolves_addResetSystem st st' n h
  | addUnique t nm => exact evolves_addUnique st st' t nm h
  | dependsOnUnique t nm r => exact evolves_dependsOnUnique st st' t nm r h
  | dependsOnPlugin t nm r => exact evolves_dependsOnPlugin st st' t nm r h
  | updatePack t nm r => exact evolves_updatePack st st' t nm r h
  | addStage nm => exact evolves_addStage st st' nm h
  | addPlugin t nm body =>
    obtain ⟨hget, hmem, st3, hrun, hst'⟩ := runOp_addPlugin_ok st t nm body st' h
    have hbody := runOps_evolves (pluginEntryState st t nm) body st3 hrun
    obtain ⟨bpath, bnames, buniq, bdeps, bpacked, badded, breason, binv⟩ := hbody
    have bpath' : st3.track_current_plugin = st.track_current_plugin ++ [t] := bpath
    subst hst'
    refine ⟨?_, ?_, ?_, ?_, ?_, ?_, ?_, ?_⟩
    · show st3.track_current_plugin.dropLast = st.track_current_plugin
      rw [bpath']
      exact List.dropLast_concat
    · intro u hu
      exact bnames u (alistContains_insertIfAbsent_mono _ t nm u hu)
    · intro u
      show alistContains st3.track_uniques u = _
      rw [buniq u]
      simp [opAny, isAddUniqueOp, pluginEntryState, tracked_type_id_of]
    · intro u
      show alistContains st3.track_unique_dependencies u = _
      rw [bdeps u]
      simp [opAny, isDepUniqueOp, pluginEntryState, tracked_type_id_of]
    · intro u
      show alistContains st3.track_update_packed u = _
      rw [bpacked u]
      simp [opAny, isUpdatePackOp, pluginEntryState, tracked_type_id_of]
    · intro u
      show alistContains (alistInsert st3.track_added_plugins t st3.track_current_plugin) u = _
      rw [alistContains_insert, badded u]
      simp only [opAny, isAddPluginOp, pluginEntryState, tracked_type_id_of]
      simp [Bool.or_assoc, Bool.or_comm, Bool.or_left_comm]
    · intro u r
      show depReason st3.track_unique_dependencies u r = _
      rw [breason u r]
      simp [opAny, isDepUniqueReasonOp, pluginEntryState, tracked_type_id_of]
    · intro hI
      obtain ⟨h1, h2, h3, h4, h5, h6, h7, h8⟩ := hI
      have hIentry : StInv (pluginEntryState st t nm) := by
        refine ⟨?_, ?_, ?_, ?_, ?_, ?_, ?_, ?_⟩
        · intro u hu
          exact alistContains_insertIfAbsent_mono _ t nm u (h1 u hu)
        · intro u hu
          exact alistContains_insertIfAbsent_mono _ t nm u (h2 u hu)
        · intro u hu
          exact alistContains_insertIfAbsent_mono _ t nm u (h3 u hu)
        · show (st.track_current_plugin ++ [t]).Nodup
          simp [List.nodup_append, h4, hmem]
        · exact h5
        · exact h6
        · exact h7
        · intro u hu
          have hu' : u ∈ st.track_current_plugin ++ [t] := hu
          rcases List.mem_append.mp hu' with hl | hr
          · exact h8 u hl
          · have hut : u = t := by simpa using hr
            subst hut
            exact alistContains_eq_false_of_get_none st.track_added_plugins u hget
      obtain ⟨i1, i2, i3, i4, i5, i6, i7, i8⟩ := binv hIentry
      refine ⟨i1, i2, ?_, ?_, i5, i6, i7, ?_⟩
      · intro u hu
        show alistContains st3.track_type_names u = true
        rw [show alistContains
            (alistInsert st3.track_added_plugins t st3.track_current_plugin) u
            = (alistContains st3.track_added_plugins u || (t == u)) from
          alistContains_insert _ t _ u] at hu
        rcases Bool.or_eq_true_iff.mp hu with ho | he
        · exact i3 u ho
        · have : t = u := by simpa using he
          subst this
          exact bnames t (alistContains_insertIfAbsent_self st.track_type_names t nm)
      · show st3.track_current_plugin.dropLast.Nodup
        rw [bpath', List.dropLast_concat]
        exact h4
      · intro u hu
        have hu2 : u ∈ st3.track_current_plugin.dropLast := hu
        rw [bpath', List.dropLast_concat] at hu2
        show alistContains
          (alistInsert st3.track_added_plugins t st3.track_current_plugin) u = false
        rw [alistContains_insert]
        have hz : alistContains st3.track_added_plugins u = false := by
          refine i8 u ?_
          show u ∈ st3.track_current_plugin
          rw [bpath']
          exact List.mem_append_left _ hu2
        have htne : (t == u) = false := by
          have : t ≠ u := fun hc => hmem (by rw [hc]; exact hu2)
          simpa using this
        rw [hz, htne]
        rfl
theorem runOps_evolves (st : AppBuilder) (ops : Ops) (st' : AppBuilder)
    (h : runOps st ops = Except.ok st') : Evolves (fun p => opsAny p ops) st st' := by
  cases ops with
  | nil =>
    rw [runOps_nil_eq] at h
    cases h
    refine ⟨rfl, fun u h => h, ?_, ?_, ?_, ?_, ?_, fun hI => hI⟩
    · intro u
      simp [opsAny]
    · intro u
      simp [opsAny]
    · intro u
      simp [opsAny]
    · intro u
      simp [opsAny]
    · intro u r
      simp [opsAny]
  | cons o rest =>
    rw [runOps_cons_eq] at h
    cases hr1 : runOp st o with
    | error e =>
      rw [hr1] at h
      cases h
    | ok st1 =>
      rw [hr1] at h
      have h2 : runOps st1 rest = Except.ok st' := h
      exact evolves_comp _ _ st st1 st'
        (runOp_evolves st o st1 hr1) (runOps_evolves st1 rest st' h2)
end

/-! ## Reachability corollaries -/

theorem reaches_inv (ops : Ops) (st : AppBuilder) (h : Reaches ops st) : StInv st :=
  (runOps_evolves AppBuilder.new ops st h).2.2.2.2.2.2.2 inv_new

theorem new_contains_false {α : Type} (pick : AppBuilder → List (TypeId × α))
    (hpick : pick AppBuilder.new = []) (u : TypeId) :
    alistContains (pick AppBuilder.new) u = false := by
  rw [hpick]
  rfl

theorem reaches_contains_uniques (ops : Ops) (st : AppBuilder) (u : TypeId)
    (h : Reaches ops st) :
    alistContains st.track_uniques u = opsAny (isAddUniqueOp u) ops := by
  have := (runOps_evolves AppBuilder.new ops st h).2.2.1 u
  rw [this]
  rfl

theorem reaches_contains_deps (ops : Ops) (st : AppBuilder) (u : TypeId)
    (h : Reaches ops st) :
    alistContains st.track_unique_dependencies u = opsAny (isDepUniqueOp u) ops := by
  have := (runOps_evolves AppBuilder.new ops st h).2.2.2.1 u
  rw [this]
  rfl

theorem reaches_contains_packed (ops : Ops) (st : AppBuilder) (u : TypeId)
    (h : Reaches ops st) :
    alistContains st.track_update_packed u = opsAny (isUpdatePackOp u) ops := by
  have := (runOps_evolves AppBuilder.new ops st h).2.2.2.2.1 u
  rw [this]
  rfl

theorem reaches_contains_added (ops : Ops) (st : AppBuilder) (u : TypeId)
    (h : Reaches ops st) :
    alistContains st.track_added_plugins u = opsAny (isAddPluginOp u) ops := by
  have := (runOps_evolves AppBuilder.new ops st h).2.2.2.2.2.1 u
  rw [this]
  rfl

theorem reaches_depReason (ops : Ops) (st : AppBuilder) (u : TypeId) (r : String)
    (h : Reaches ops st) :
    depReason st.track_unique_dependencies u r = opsAny (isDepUniqueReasonOp u r) ops := by
  have := (runOps_evolves AppBuilder.new ops st h).2.2.2.2.2.2.1 u r
  rw [this]
  rfl

/-! ## Analysis of `finish` -/

theorem alistGet_cons {α : Type} (k' : TypeId) (v : α) (m : List (TypeId × α)) (u : TypeId) :
    alistGet ((k', v) :: m) u = if (k' == u) = true then some v else alistGet m u := by
  by_cases h : (k' == u) = true
  · simp [alistGet, List.find?, h]
  · have h' : (k' == u) = false := Bool.eq_false_iff.mpr h
    simp [alistGet, List.find?, h']

theorem finish_eq (st : AppBuilder) :
    finish st = (uniqueDiagLoop st.track_type_names st.track_uniques
        st.track_unique_dependencies).bind (fun p =>
      (remainingDepsMsgs st.track_type_names p.2).bind (fun msgs =>
        if msgs.isEmpty then
          Except.ok (st.stage_workloads.flattenStages ++ st.resets, p.1)
        else
          Except.error (BuildError.unmetUniqueDependency msgs))) := rfl

theorem uniqueDiagLoop_spec (names : List (TypeId × String)) :
    ∀ (uniq : List (TypeId × List PluginId)) (deps : List (TypeId × List (PluginId × String))),
    (∀ u, alistContains uniq u = true → alistContains names u = true) →
    ∃ ds rem, uniqueDiagLoop names uniq deps = Except.ok (ds, rem)
      ∧ (∀ e, e ∈ rem → e ∈ deps)
      ∧ (∀ t, alistContains uniq t = false → alistGet rem t = alistGet deps t)
      ∧ ((∀ e, e ∈ deps → alistContains uniq e.1 = true) → rem = [])
      ∧ (∀ t provs, (t, provs) ∈ uniq → 1 < provs.length →
          ∃ nm dep, alistGet names t = some nm
            ∧ Diag.warnMultipleProviders nm provs dep ∈ ds) := by
  intro uniq
  induction uniq with
  | nil =>
    intro deps hnm
    refine ⟨[], deps, rfl, fun e he => he, fun t _ => rfl, ?_, ?_⟩
    · intro hall
      cases deps with
      | nil => rfl
      | cons e rest =>
        have := hall e (by simp)
        simp [alistContains] at this
    · intro t provs hmem
      simp at hmem
  | cons ep rest ih =>
    obtain ⟨t0, provs0⟩ := ep
    intro deps hnm
    have hnm0 : alistContains names t0 = true := by
      refine hnm t0 ?_
      rw [alistContains_cons]
      simp
    obtain ⟨nm0, hget0⟩ := alistGet_isSome_of_contains names t0 hnm0
    have hnmrest : ∀ u, alistContains rest u = true → alistContains names u = true := by
      intro u hu
      refine hnm u ?_
      rw [alistContains_cons, hu, Bool.or_true]
    obtain ⟨ds, rem, hloop, hsub, hgetu, hempty, hwarn⟩ := ih (alistRemove deps t0) hnmrest
    refine ⟨(if provs0.length > 1 then
        [Diag.warnMultipleProviders nm0 provs0 ((alistGet deps t0).getD [])]
      else []) ++ [Diag.traceUnique nm0 provs0 ((alistGet deps t0).getD [])] ++ ds,
      rem, ?_, ?_, ?_, ?_, ?_⟩
    · show uniqueDiagLoop names ((t0, provs0) :: rest) deps = _
      rw [show uniqueDiagLoop names ((t0, provs0) :: rest) deps
          = (match alistGet names t0 with
            | none => Except.error (BuildError.missingTypeName t0)
            | some nm =>
                (uniqueDiagLoop names rest (alistRemove deps t0)).map (fun p =>
                  ((if provs0.length > 1 then
                      [Diag.warnMultipleProviders nm provs0 ((alistGet deps t0).getD [])]
                    else []) ++ [Diag.traceUnique nm provs0 ((alistGet deps t0).getD [])]
                    ++ p.1, p.2))) from rfl, hget0, hloop]
      rfl
    · intro e he
      exact (mem_alistRemove deps t0 e (hsub e he)).1
    · intro t ht
      rw [alistContains_cons] at ht
      simp only [Bool.or_eq_false_iff] at ht
      have hne : t0 ≠ t := by simpa using ht.1
      rw [hgetu t ht.2]
      exact alistGet_remove_ne deps t0 t hne
    · intro hall
      refine hempty ?_
      intro e he
      obtain ⟨hmem, hne⟩ := mem_alistRemove deps t0 e he
      have := hall e hmem
      rw [alistContains_cons] at this
      rcases Bool.or_eq_true_iff.mp this with h0 | hr
      · have he0 : t0 = e.1 := by simpa using h0
        exact absurd he0.symm hne
      · exact hr
    · intro t provs hmem hlen
      rcases List.mem_cons.mp hmem with hhd | htl
      · have ht : t0 = t ∧ provs0 = provs := by
          constructor <;> injection hhd <;> simp_all
        obtain ⟨ht0, hp0⟩ := ht
        subst ht0
        subst hp0
        refine ⟨nm0, (alistGet deps t0).getD [], hget0, ?_⟩
        rw [if_pos hlen]
        simp
      · obtain ⟨nm, dep, hget, hin⟩ := hwarn t provs htl hlen
        refine ⟨nm, dep, hget, ?_⟩
        simp [hin]

theorem remainingDepsMsgs_spec (names : List (TypeId × String)) :
    ∀ (rem : List (TypeId × List (PluginId × String))),
    (∀ u, alistContains rem u = true → alistContains names u = true) →
    ∃ msgs, remainingDepsMsgs names rem = Except.ok msgs
      ∧ msgs.length = rem.length
      ∧ (∀ t l, alistGet rem t = some l →
          ∃ nm, alistGet names t = some nm ∧ (nm, l) ∈ msgs) := by
  intro rem
  induction rem with
  | nil =>
    intro hnm
    refine ⟨[], rfl, rfl, ?_⟩
    intro t l hl
    cases hl
  | cons e rest ih =>
    obtain ⟨t0, dep0⟩ := e
    intro hnm
    have h0 : alistContains names t0 = true := by
      refine hnm t0 ?_
      rw [alistContains_cons]
      simp
    obtain ⟨nm0, hget0⟩ := alistGet_isSome_of_contains names t0 h0
    obtain ⟨msgs, hrun, hlen, hmem⟩ := ih (fun u hu => hnm u (by
      rw [alistContains_cons, hu, Bool.or_true]))
    refine ⟨(nm0, dep0) :: msgs, ?_, by simp [hlen], ?_⟩
    · show remainingDepsMsgs names ((t0, dep0) :: rest) = _
      rw [show remainingDepsMsgs names ((t0, dep0) :: rest)
          = (match alistGet names t0 with
            | none => Except.error (BuildError.missingTypeName t0)
            | some nm => (remainingDepsMsgs names rest).map
                (fun ms => (nm, dep0) :: ms)) from rfl, hget0, hrun]
      rfl
    · intro t l hl
      rw [alistGet_cons] at hl
      by_cases ht : (t0 == t) = true
      · rw [if_pos ht] at hl
        have htt : t0 = t := by simpa using ht
        subst htt
        have : dep0 = l := by injection hl
        subst this
        exact ⟨nm0, hget0, by simp⟩
      · rw [if_neg ht] at hl
        obtain ⟨nm, hget, hin⟩ := hmem t l hl
        exact ⟨nm, hget, by simp [hin]⟩

theorem finish_ok_workload (st : AppBuilder) (w : List Sys) (ds : List Diag)
    (h : finish st = Except.ok (w, ds)) :
    w = st.stage_workloads.flattenStages ++ st.resets := by
  rw [finish_eq] at h
  cases hl : uniqueDiagLoop st.track_type_names st.track_uniques
      st.track_unique_dependencies with
  | error e =>
    rw [hl] at h
    cases h
  | ok p =>
    rw [hl] at h
    have h2 : (remainingDepsMsgs st.track_type_names p.2).bind (fun msgs =>
        if msgs.isEmpty then
          Except.ok (st.stage_workloads.flattenStages ++ st.resets, p.1)
        else
          Except.error (BuildError.unmetUniqueDependency msgs)) = Except.ok (w, ds) := h
    cases hm : remainingDepsMsgs st.track_type_names p.2 with
    | error e =>
      rw [hm] at h2
      cases h2
    | ok msgs =>
      rw [hm] at h2
      have h3 : (if msgs.isEmpty = true then
          (Except.ok (st.stage_workloads.flattenStages ++ st.resets, p.1) :
            Except BuildError (List Sys × List Diag))
        else
          Except.error (BuildError.unmetUniqueDependency msgs)) = Except.ok (w, ds) := h2
      by_cases he : msgs.isEmpty = true
      · rw [if_pos he] at h3
        injection h3 with h4
        exact (congrArg Prod.fst h4).symm
      · rw [if_neg he] at h3
        cases h3

theorem finish_unmet (st : AppBuilder) (t : TypeId) (hInv : StInv st)
    (h1 : alistContains st.track_unique_dependencies t = true)
    (h2 : alistContains st.track_uniques t = false) :
    ∃ msgs l nm, finish st = Except.error (BuildError.unmetUniqueDependency msgs)
      ∧ alistGet st.track_unique_dependencies t = some l
      ∧ alistGet st.track_type_names t = some nm
      ∧ (nm, l) ∈ msgs := by
  obtain ⟨ds, rem, hloop, hsub, hgetu, hempty, hwarn⟩ :=
    uniqueDiagLoop_spec st.track_type_names st.track_uniques
      st.track_unique_dependencies hInv.1
  obtain ⟨l, hl⟩ := alistGet_isSome_of_contains st.track_unique_dependencies t h1
  have hremt : alistGet rem t = some l := by
    rw [hgetu t h2]
    exact hl
  have hnmrem : ∀ u, alistContains rem u = true →
      alistContains st.track_type_names u = true := by
    intro u hu
    obtain ⟨v, hv⟩ := alistGet_isSome_of_contains rem u hu
    have hm := alistGet_mem rem u v hv
    have hd := hsub (u, v) hm
    exact hInv.2.1 u (mem_alistContains st.track_unique_dependencies (u, v) hd)
  obtain ⟨msgs, hrun, hlen, hmem⟩ := remainingDepsMsgs_spec st.track_type_names rem hnmrem
  obtain ⟨nm, hnm, hin⟩ := hmem t l hremt
  have hremne : rem ≠ [] := by
    intro hcon
    rw [hcon] at hremt
    cases hremt
  have hne : msgs.isEmpty = false := by
    cases msgs with
    | nil =>
      exfalso
      apply hremne
      cases rem with
      | nil => rfl
      | cons a b => simp at hlen
    | cons a b => rfl
  refine ⟨msgs, l, nm, ?_, hl, hnm, hin⟩
  rw [finish_eq, hloop]
  show (remainingDepsMsgs st.track_type_names rem).bind (fun msgs =>
      if msgs.isEmpty then
        Except.ok (st.stage_workloads.flattenStages ++ st.resets, ds)
      else
        Except.error (BuildError.unmetUniqueDependency msgs))
      = Except.error (BuildError.unmetUniqueDependency msgs)
  rw [hrun]
  show (if msgs.isEmpty = true then
      (Except.ok (st.stage_workloads.flattenStages ++ st.resets, ds) :
        Except BuildError (List Sys × List Diag))
    else
      Except.error (BuildError.unmetUniqueDependency msgs))
      = Except.error (BuildError.unmetUniqueDependency msgs)
  rw [hne]
  rfl

theorem finish_allmet (st : AppBuilder) (hInv : StInv st)
    (hall : ∀ u, alistContains st.track_unique_dependencies u = true →
      alistContains st.track_uniques u = true) :
    ∃ ds, finish st = Except.ok (st.stage_workloads.flattenStages ++ st.resets, ds)
      ∧ (∀ t provs, alistGet st.track_uniques t = some provs → 1 < provs.length →
          ∃ nm dep, alistGet st.track_type_names t = some nm
            ∧ Diag.warnMultipleProviders nm provs dep ∈ ds) := by
  obtain ⟨ds, rem, hloop, hsub, hgetu, hempty, hwarn⟩ :=
    uniqueDiagLoop_spec st.track_type_names st.track_uniques
      st.track_unique_dependencies hInv.1
  have hrem : rem = [] := by
    refine hempty ?_
    intro e he
    exact hall e.1 (mem_alistContains st.track_unique_dependencies e he)
  subst hrem
  refine ⟨ds, ?_, ?_⟩
  · rw [finish_eq, hloop]
    rfl
  · intro t provs hget hlen
    exact hwarn t provs (alistGet_mem st.track_uniques t provs hget) hlen

theorem finish_not_missing_name (st : AppBuilder) (hInv : StInv st) (u : TypeId) :
    finish st ≠ Except.error (BuildError.missingTypeName u) := by
  obtain ⟨ds, rem, hloop, hsub, hgetu, hempty, hwarn⟩ :=
    uniqueDiagLoop_spec st.track_type_names st.track_uniques
      st.track_unique_dependencies hInv.1
  have hnmrem : ∀ v, alistContains rem v = true →
      alistContains st.track_type_names v = true := by
    intro v hv
    obtain ⟨l, hl⟩ := alistGet_isSome_of_contains rem v hv
    have hm := alistGet_mem rem v l hl
    have hd := hsub (v, l) hm
    exact hInv.2.1 v (mem_alistContains st.track_unique_dependencies (v, l) hd)
  obtain ⟨msgs, hrun, hlen, hmem⟩ := remainingDepsMsgs_spec st.track_type_names rem hnmrem
  intro hcon
  rw [finish_eq, hloop] at hcon
  have h2 : (remainingDepsMsgs st.track_type_names rem).bind (fun msgs =>
      if msgs.isEmpty then
        Except.ok (st.stage_workloads.flattenStages ++ st.resets, ds)
      else
        Except.error (BuildError.unmetUniqueDependency msgs))
      = Except.error (BuildError.missingTypeName u) := hcon
  rw [hrun] at h2
  have h3 : (if msgs.isEmpty = true then
      (Except.ok (st.stage_workloads.flattenStages ++ st.resets, ds) :
        Except BuildError (List Sys × List Diag))
    else
      Except.error (BuildError.unmetUniqueDependency msgs))
      = Except.error (BuildError.missingTypeName u) := h2
  by_cases he : msgs.isEmpty = true
  · rw [if_pos he] at h3
    cases h3
  · rw [if_neg he] at h3
    injection h3 with h4
    cases h4

/-! ## Claim theorems -/

/-- C1, counterexample: the claim says every tracked-storage reset system
precedes every explicitly registered reset system regardless of call order.
In the build `opsC1` an explicit reset system (`user 0`) is registered
before `update_pack::<T>` is called; the finished workload is
`[user 0, resetUpdatePack 5]`, with the explicit reset first — not the
claimed `[resetUpdatePack 5, user 0]`. -/
theorem C1_counterexample :
    (runOps AppBuilder.new opsC1).bind finish
      = Except.ok ([Sys.user 0, Sys.resetUpdatePack 5], [])
    ∧ [Sys.user 0, Sys.resetUpdatePack 5] ≠ [Sys.resetUpdatePack 5, Sys.user 0] := by
  constructor
  · rfl
  · intro h
    cases h

/-- C1 (amended): the workload produced by `finish` is the ordered
concatenation of all stage systems in stage order followed by the builder's
reset list; `add_reset_system` and the first `update_pack` call for a type
each append to that one reset list at call time, so tracked-storage resets
and explicit resets are interleaved in registration order rather than
segregated. -/
theorem C1_workload_order :
    (∀ st w ds, finish st = Except.ok (w, ds) →
        w = st.stage_workloads.flattenStages ++ st.resets)
    ∧ (∀ st n st', runOp st (Op.addResetSystem n) = Except.ok st' →
        st'.resets = st.resets ++ [Sys.user n])
    ∧ (∀ st t nm r st', runOp st (Op.updatePack t nm r) = Except.ok st' →
        st'.resets = (if alistContains st.track_update_packed t = true then st.resets
          else st.resets ++ [Sys.resetUpdatePack t])) := by
  refine ⟨fun st w ds h => finish_ok_workload st w ds h, ?_, ?_⟩
  · intro st n st' h
    rw [runOp_addResetSystem_eq] at h
    cases h
    rfl
  · intro st t nm r st' h
    rw [runOp_updatePack_eq] at h
    by_cases hc : alistContains st.track_update_packed t = true
    · rw [if_pos hc] at h
      cases h
      rw [if_pos hc]
      rfl
    · rw [if_neg hc] at h
      cases h
      rw [if_neg hc]

/-- C1 witness: instantiates each part of `C1_workload_order` at a concrete
input. -/
theorem C1_workload_order_witness :
    ([Sys.user 0, Sys.resetUpdatePack 5]
        = stC1.stage_workloads.flattenStages ++ stC1.resets)
    ∧ ({ stC1 with resets := stC1.resets ++ [Sys.user 7] }.resets
        = stC1.resets ++ [Sys.user 7])
    ∧ (stUP3.resets
        = (if alistContains AppBuilder.new.track_update_packed 3 = true
            then AppBuilder.new.resets
            else AppBuilder.new.resets ++ [Sys.resetUpdatePack 3])) :=
  ⟨C1_workload_order.1 stC1 [Sys.user 0, Sys.resetUpdatePack 5] [] rfl,
   C1_workload_order.2.1 stC1 7 { stC1 with resets := stC1.resets ++ [Sys.user 7] } rfl,
   C1_workload_order.2.2 AppBuilder.new 3 "X" "rx" stUP3 rfl⟩

/-- C2: if any executed call declared a unique dependency on type `t`
(`depends_on_unique::<T>`) and no executed call provided it
(`add_unique::<T>`), then `finish` panics with the unmet-unique-dependency
message, which names `t` (via the interned type name) and carries the full
recorded list of (requester path, reason) entries — every declared reason
appears in it. Conversely, when every depended-on unique type was provided,
`finish` never raises the unmet-unique-dependency panic. -/
theorem C2_unmet_unique_dependencies :
    ∀ ops st, Reaches ops st →
      (∀ t, opsAny (isDepUniqueOp t) ops = true →
        opsAny (isAddUniqueOp t) ops = false →
        ∃ msgs l nm,
          finish st = Except.error (BuildError.unmetUniqueDependency msgs)
          ∧ alistGet st.track_unique_dependencies t = some l
          ∧ alistGet st.track_type_names t = some nm
          ∧ (nm, l) ∈ msgs
          ∧ (∀ r, opsAny (isDepUniqueReasonOp t r) ops = true → ∃ pth, (pth, r) ∈ l))
      ∧ ((∀ t, opsAny (isDepUniqueOp t) ops = true →
            opsAny (isAddUniqueOp t) ops = true) →
        ∀ msgs, finish st ≠ Except.error (BuildError.unmetUniqueDependency msgs)) := by
  intro ops st hR
  have hInv := reaches_inv ops st hR
  constructor
  · intro t hdep hnoadd
    have h1 : alistContains st.track_unique_dependencies t = true := by
      rw [reaches_contains_deps ops st t hR]
      exact hdep
    have h2 : alistContains st.track_uniques t = false := by
      rw [reaches_contains_uniques ops st t hR]
      exact hnoadd
    obtain ⟨msgs, l, nm, hfin, hget, hnm, hin⟩ := finish_unmet st t hInv h1 h2
    refine ⟨msgs, l, nm, hfin, hget, hnm, hin, ?_⟩
    intro r hr
    have hdr : depReason st.track_unique_dependencies t r = true := by
      rw [reaches_depReason ops st t r hR]
      exact hr
    rw [depReason, hget] at hdr
    obtain ⟨pr, hprmem, hpr⟩ := List.any_eq_true.mp hdr
    refine ⟨pr.1, ?_⟩
    have hpr2 : pr.2 = r := by simpa using hpr
    rw [← hpr2]
    exact hprmem
  · intro hall msgs hcon
    have hall' : ∀ u, alistContains st.track_unique_dependencies u = true →
        alistContains st.track_uniques u = true := by
      intro u hu
      rw [reaches_contains_uniques ops st u hR]
      refine hall u ?_
      rw [← reaches_contains_deps ops st u hR]
      exact hu
    obtain ⟨ds, hfin, hwarn⟩ := finish_allmet st hInv hall'
    rw [hfin] at hcon
    cases hcon

/-- C2 witness: in the build `opsC2a` the unique 0 is depended on but never
provided, so `finish` fails with the recorded requester and reason; in
`opsC2b` every depended-on unique is provided and the unmet panic cannot
occur. -/
theorem C2_unmet_unique_dependencies_witness :
    (∃ msgs l nm,
        finish stC2a = Except.error (BuildError.unmetUniqueDependency msgs)
        ∧ alistGet stC2a.track_unique_dependencies 0 = some l
        ∧ alistGet stC2a.track_type_names 0 = some nm
        ∧ (nm, l) ∈ msgs
        ∧ (∀ r, opsAny (isDepUniqueReasonOp 0 r) opsC2a = true → ∃ pth, (pth, r) ∈ l))
    ∧ (∀ msgs, finish stC2b ≠ Except.error (BuildError.unmetUniqueDependency msgs)) :=
  ⟨(C2_unmet_unique_dependencies opsC2a stC2a rfl).1 0 (by decide) (by decide),
   (C2_unmet_unique_dependencies opsC2b stC2b rfl).2 (fun t h1 => by
     revert h1
     simp [opsC2b, opsAny, opAny, isDepUniqueOp, isAddUniqueOp])⟩

/-- C3: `depends_on_plugin::<T>` succeeds exactly when `T` is already in
`track_added_plugins`, i.e. when a prior `add_plugin::<T>` fully returned
(the added-set evolves exactly through completed `add_plugin` calls);
otherwise it fails immediately with the missing-plugin-dependency panic
carrying the requesting path, `T`'s name and the reason. In particular, a
plugin declaring a dependency on itself inside its own `build` fails. -/
theorem C3_depends_on_plugin_eager :
    (∀ st t nm r, (∃ st', runOp st (Op.dependsOnPlugin t nm r) = Except.ok st')
        ↔ alistContains st.track_added_plugins t = true)
    ∧ (∀ st t nm r, alistContains st.track_added_plugins t = false →
        runOp st (Op.dependsOnPlugin t nm r)
          = Except.error
              (BuildError.missingPluginDependency st.track_current_plugin nm r))
    ∧ (∀ st ops st' u, runOps st ops = Except.ok st' →
        alistContains st'.track_added_plugins u
          = (alistContains st.track_added_plugins u || opsAny (isAddPluginOp u) ops))
    ∧ runOps AppBuilder.new opsC3
        = Except.error (BuildError.missingPluginDependency [0] "T" "r") := by
  refine ⟨?_, ?_, ?_, rfl⟩
  · intro st t nm r
    constructor
    · rintro ⟨st', h⟩
      rw [runOp_dependsOnPlugin_eq] at h
      by_cases hc : alistContains st.track_added_plugins t = true
      · exact hc
      · rw [if_neg hc] at h
        cases h
    · intro hc
      exact ⟨tracked_type_id_of st t nm, by rw [runOp_dependsOnPlugin_eq, if_pos hc]⟩
  · intro st t nm r hc
    simp [runOp_dependsOnPlugin_eq, hc]
  · intro st ops st' u h
    exact (runOps_evolves st ops st' h).2.2.2.2.2.1 u

/-- C3 witness: with plugin `A` (key 0) already added (`stC4`), the
dependency check succeeds; on a fresh builder it panics; the added-set of
`stC4` reflects the completed `add_plugin` call of `opsC4`. The program
`opsC3`, where `T` depends on itself inside its own build, panics. -/
theorem C3_depends_on_plugin_eager_witness :
    (∃ st', runOp stC4 (Op.dependsOnPlugin 0 "A" "because") = Except.ok st')
    ∧ (runOp AppBuilder.new (Op.dependsOnPlugin 0 "T" "r")
        = Except.error (BuildError.missingPluginDependency [] "T" "r"))
    ∧ (alistContains stC4.track_added_plugins 0
        = (alistContains AppBuilder.new.track_added_plugins 0
            || opsAny (isAddPluginOp 0) opsC4)) :=
  ⟨(C3_depends_on_plugin_eager.1 stC4 0 "A" "because").mpr rfl,
   C3_depends_on_plugin_eager.2.1 AppBuilder.new 0 "T" "r" rfl,
   C3_depends_on_plugin_eager.2.2.1 AppBuilder.new opsC4 stC4 0 rfl⟩

/-- C4: in any reachable builder state, `add_plugin::<T>` for a `T` already
recorded in `track_added_plugins` panics with the duplicate-plugin message
(current path and previously recorded path). The panic fires before any
mutation: the single operation preceding the check, `tracked_type_id_of`,
leaves the builder unchanged because `T`'s name was interned when it was
first added — so stages, resets, uniques, dependency records, added-plugin
records and the current path are all untouched. -/
theorem C4_duplicate_plugin_no_side_effect :
    ∀ ops st, Reaches ops st → ∀ t nm body prev,
      alistGet st.track_added_plugins t = some prev →
      runOp st (Op.addPlugin t nm body)
        = Except.error (BuildError.duplicatePlugin st.track_current_plugin prev)
      ∧ tracked_type_id_of st t nm = st := by
  intro ops st hR t nm body prev hget
  have hInv := reaches_inv ops st hR
  have hcontains : alistContains st.track_added_plugins t = true :=
    alistContains_of_get st.track_added_plugins t prev hget
  have hnames : alistContains st.track_type_names t = true := hInv.2.2.1 t hcontains
  constructor
  · rw [runOp_addPlugin_eq, hget]
  · show { st with track_type_names := alistInsertIfAbsent st.track_type_names t nm } = st
    rw [alistInsertIfAbsent_of_contains st.track_type_names t nm hnames]

/-- C4 witness: re-adding plugin `A` (key 0) to `stC4` panics with the
duplicate-plugin data and the interning step is the identity. -/
theorem C4_duplicate_plugin_no_side_effect_witness :
    (runOp stC4 (Op.addPlugin 0 "A" Ops.nil)
      = Except.error (BuildError.duplicatePlugin [] [0]))
    ∧ tracked_type_id_of stC4 0 "A" = stC4 :=
  C4_duplicate_plugin_no_side_effect opsC4 stC4 rfl 0 "A" Ops.nil [0] rfl

/-- C5: when `T`'s key is already on the current nesting path (and `T` is
not in the added set — component 8 of `StInv`, which holds in every
reachable and every mid-build state), `add_plugin::<T>` panics with the
plugin-cycle message whose reported path is exactly the current nesting.
When `T` is not on the path, the call itself raises no cycle panic: any
plugin-cycle error propagating out of it comes from the nested execution of
`T`'s build body. -/
theorem C5_plugin_cycle :
    ∀ st t nm body, alistContains st.track_added_plugins t = false →
      (t ∈ st.track_current_plugin →
        runOp st (Op.addPlugin t nm body)
          = Except.error (BuildError.pluginCycle st.track_current_plugin
              ((alistGet (tracked_type_id_of st t nm).track_type_names t).getD "")))
      ∧ (t ∉ st.track_current_plugin →
        ∀ p m, runOp st (Op.addPlugin t nm body)
            = Except.error (BuildError.pluginCycle p m) →
          runOps (pluginEntryState st t nm) body
            = Except.error (BuildError.pluginCycle p m)) := by
  intro st t nm body hnc
  have hgetn : alistGet st.track_added_plugins t = none :=
    alistGet_eq_none_of_not_contains st.track_added_plugins t hnc
  constructor
  · intro hmem
    simp only [runOp_addPlugin_eq, hgetn]
    rw [if_pos hmem]
  · intro hmem p m h
    simp only [runOp_addPlugin_eq, hgetn] at h
    rw [if_neg hmem] at h
    cases hr : runOps (pluginEntryState st t nm) body with
    | error e =>
      rw [hr] at h
      exact h
    | ok st3 =>
      rw [hr] at h
      have h3 : Except.ok { st3 with
          track_added_plugins :=
            alistInsert st3.track_added_plugins t st3.track_current_plugin
          track_current_plugin := st3.track_current_plugin.dropLast }
          = Except.error (BuildError.pluginCycle p m) := h
      cases h3

/-- C5 witness: in the mid-build state `stC5`, whose path is `[0]`,
re-adding plugin key 0 panics with the cycle message reporting path `[0]`;
on a fresh builder a non-cyclic `add_plugin` yields no cycle panic. -/
theorem C5_plugin_cycle_witness :
    (runOp stC5 (Op.addPlugin 0 "A" Ops.nil)
      = Except.error (BuildError.pluginCycle [0]
          ((alistGet (tracked_type_id_of stC5 0 "A").track_type_names 0).getD "")))
    ∧ (∀ p m, runOp AppBuilder.new (Op.addPlugin 1 "B" Ops.nil)
        = Except.error (BuildError.pluginCycle p m) →
      runOps (pluginEntryState AppBuilder.new 1 "B") Ops.nil
        = Except.error (BuildError.pluginCycle p m)) :=
  ⟨(C5_plugin_cycle stC5 0 "A" Ops.nil rfl).1 (by decide),
   (C5_plugin_cycle AppBuilder.new 1 "B" Ops.nil rfl).2 (by decide)⟩

theorem alistGet_insert_self {α : Type} (m : List (TypeId × α)) (k : TypeId) (v : α) :
    alistGet (alistInsert m k v) k = some v := by
  induction m with
  | nil => simp [alistInsert, alistGet, List.find?]
  | cons e rest ih =>
    cases e with
    | mk k' w =>
      by_cases hk : k' = k
      · rw [show alistInsert ((k', w) :: rest) k v = (k, v) :: rest from by
          simp [alistInsert, hk]]
        simp [alistGet, List.find?]
      · rw [show alistInsert ((k', w) :: rest) k v = (k', w) :: alistInsert rest k v from by
          simp [alistInsert, hk]]
        have hk' : (k' == k) = false := by simpa using hk
        simp only [alistGet, List.find?, hk', cond_false] at ih ⊢
        exact ih

/-- C6, counterexample: the claim says all reasons recorded by `update_pack`
appear in the diagnostics emitted at `finish`. In the build `opsC6`,
`update_pack::<T>` is called twice with reasons "a" and "b"; both are
recorded in `track_update_packed`, yet `finish` emits no diagnostics at all
(`finish_with_info_named` discards `track_update_packed` in its
destructuring pattern and its diagnostics cover uniques only). -/
theorem C6_counterexample :
    runOps AppBuilder.new opsC6 = Except.ok stC6
    ∧ stC6.track_update_packed = [(0, [([], "a"), ([], "b")])]
    ∧ finish stC6 = Except.ok ([Sys.resetUpdatePack 0], []) :=
  ⟨rfl, rfl, rfl⟩

/-- C6 (amended): repeated `update_pack::<T>` calls switch `T`'s storage
into tracking mode exactly once and contribute exactly one reset system for
`T` to the final workload; every call, including the first, records its
(path, reason) entry in `track_update_packed`; but `finish` discards the
recorded entries — its output is unchanged whatever that table holds, so
the reasons appear in no diagnostic. -/
theorem C6_update_pack_once :
    (∀ ops st t, Reaches ops st → opsAny (isUpdatePackOp t) ops = true →
      st.world_update_packed.count t = 1
      ∧ st.resets.count (Sys.resetUpdatePack t) = 1
      ∧ (∀ w ds, finish st = Except.ok (w, ds) → w.count (Sys.resetUpdatePack t) = 1))
    ∧ (∀ st t nm r st', runOp st (Op.updatePack t nm r) = Except.ok st' →
        alistGet st'.track_update_packed t
          = some (((alistGet st.track_update_packed t).getD [])
              ++ [(st.track_current_plugin, r)]))
    ∧ (∀ st l, finish { st with track_update_packed := l } = finish st) := by
  refine ⟨?_, ?_, fun st l => rfl⟩
  · intro ops st t hR hany
    have hInv := reaches_inv ops st hR
    have hcp : alistContains st.track_update_packed t = true := by
      rw [reaches_contains_packed ops st t hR]
      exact hany
    have hres : st.resets.count (Sys.resetUpdatePack t) = 1 := by
      rw [hInv.2.2.2.2.1 t, hcp]
      rfl
    have hworld : st.world_update_packed.count t = 1 := by
      rw [hInv.2.2.2.2.2.1 t, hcp]
      rfl
    refine ⟨hworld, hres, ?_⟩
    intro w ds hfin
    rw [finish_ok_workload st w ds hfin, List.count_append,
      hInv.2.2.2.2.2.2.1 t, hres]
  · intro st t nm r st' h
    rw [runOp_updatePack_eq] at h
    by_cases hc : alistContains st.track_update_packed t = true
    · rw [if_pos hc] at h
      cases h
      show alistGet (alistPush st.track_update_packed t (st.track_current_plugin, r)) t = _
      rw [alistGet_push_self]
    · rw [if_neg hc] at h
      cases h
      show alistGet
        (alistInsert st.track_update_packed t [(st.track_current_plugin, r)]) t = _
      rw [alistGet_insert_self,
        alistGet_eq_none_of_not_contains st.track_update_packed t (by simpa using hc)]
      rfl

/-- C6 witness: instantiates `C6_update_pack_once` on the double
`update_pack` build `opsC6` and on a single call on a fresh builder. -/
theorem C6_update_pack_once_witness :
    (stC6.world_update_packed.count 0 = 1
      ∧ stC6.resets.count (Sys.resetUpdatePack 0) = 1
      ∧ (∀ w ds, finish stC6 = Except.ok (w, ds) → w.count (Sys.resetUpdatePack 0) = 1))
    ∧ (alistGet stUP3.track_update_packed 3
        = some (((alistGet AppBuilder.new.track_update_packed 3).getD [])
            ++ [(AppBuilder.new.track_current_plugin, "rx")]))
    ∧ finish { stC6 with track_update_packed := [] } = finish stC6 :=
  ⟨C6_update_pack_once.1 opsC6 stC6 0 rfl (by decide),
   C6_update_pack_once.2.1 AppBuilder.new 3 "X" "rx" stUP3 rfl,
   C6_update_pack_once.2.2 stC6 []⟩

/-- C7: if `add_unique::<T>` was called more than once (the provider list
of `t` has length above one), `finish` emits the non-fatal
multiple-providers warning for `t` and still produces the workload; the
multiple providers by themselves never make `finish` fail (the unmet-deps
hypothesis rules out the only fatal check). -/
theorem C7_multiple_providers_warn :
    ∀ ops st t provs, Reaches ops st →
      alistGet st.track_uniques t = some provs → 1 < provs.length →
      (∀ u, alistContains st.track_unique_dependencies u = true →
        alistContains st.track_uniques u = true) →
      ∃ ds, finish st
          = Except.ok (st.stage_workloads.flattenStages ++ st.resets, ds)
        ∧ ∃ nm dep, alistGet st.track_type_names t = some nm
            ∧ Diag.warnMultipleProviders nm provs dep ∈ ds := by
  intro ops st t provs hR hget hlen hall
  have hInv := reaches_inv ops st hR
  obtain ⟨ds, hfin, hwarn⟩ := finish_allmet st hInv hall
  exact ⟨ds, hfin, hwarn t provs hget hlen⟩

/-- C7 witness: the build `opsC7` registers the unique 0 twice; `finish`
succeeds and warns. -/
theorem C7_multiple_providers_warn_witness :
    ∃ ds, finish stC7
        = Except.ok (stC7.stage_workloads.flattenStages ++ stC7.resets, ds)
      ∧ ∃ nm dep, alistGet stC7.track_type_names 0 = some nm
          ∧ Diag.warnMultipleProviders nm [[], []] dep ∈ ds :=
  C7_multiple_providers_warn opsC7 stC7 0 [[], []] rfl rfl (by decide)
    (fun u hu => by
      simp [stC7, AppBuilder.new, AppBuilder.empty, alistContains] at hu)

theorem stageAppend_shape :
    ∀ (l : List (String × List Sys)) (nm : String) (s : Sys) l',
      stageAppend l nm s = some l' →
      ∃ pre sl post, l = pre ++ (nm, sl) :: post
        ∧ l' = pre ++ (nm, sl ++ [s]) :: post := by
  intro l
  induction l with
  | nil =>
    intro nm s l' h
    cases h
  | cons e rest ih =>
    obtain ⟨n, li⟩ := e
    intro nm s l' h
    by_cases hn : n = nm
    · rw [show stageAppend ((n, li) :: rest) nm s = some ((n, li ++ [s]) :: rest) from by
        simp [stageAppend, hn]] at h
      injection h with h2
      subst hn
      exact ⟨[], li, rest, rfl, h2.symm⟩
    · rw [show stageAppend ((n, li) :: rest) nm s
          = (stageAppend rest nm s).map (fun r => (n, li) :: r) from by
        simp [stageAppend, hn]] at h
      cases hr : stageAppend rest nm s with
      | none =>
        rw [hr] at h
        cases h
      | some r =>
        rw [hr] at h
        simp only [Option.map_some', Option.some.injEq] at h
        subst h
        obtain ⟨pre, sl, post, h1, h2⟩ := ih nm s r hr
        exact ⟨(n, li) :: pre, sl, post, by rw [h1]; rfl, by rw [h2]; rfl⟩

/-- C8: the finished workload is the concatenation of all stage system
lists in stage insertion order followed by the reset systems; in particular
a builder whose stages are `S1 = [a, b]` and `S2 = [c]` finishes with the
system order `[a, b, c] ++ resets`. `add_system` appends to the default
stage in place, preserving the surrounding stages and the registration
order inside the stage. -/
theorem C8_stage_order :
    (∀ st w ds, finish st = Except.ok (w, ds) →
        w = st.stage_workloads.flattenStages ++ st.resets)
    ∧ (∀ st s1 s2 a b c w ds,
        st.stage_workloads.ordered = [(s1, [a, b]), (s2, [c])] →
        finish st = Except.ok (w, ds) →
        w = [a, b, c] ++ st.resets)
    ∧ (∀ st n st', runOp st (Op.addSystem n) = Except.ok st' →
        ∃ pre sl post,
          st.stage_workloads.ordered = pre ++ (DEFAULT_STAGE, sl) :: post
          ∧ st'.stage_workloads.ordered
              = pre ++ (DEFAULT_STAGE, sl ++ [Sys.user n]) :: post) := by
  refine ⟨fun st w ds h => finish_ok_workload st w ds h, ?_, ?_⟩
  · intro st s1 s2 a b c w ds hord hfin
    rw [finish_ok_workload st w ds hfin]
    rw [show st.stage_workloads.flattenStages = [a, b, c] from by
      rw [flatL_eq, hord]
      rfl]
  · intro st n st' h
    rw [runOp_addSystem_eq, Workloads.add_system_to_stage] at h
    cases hs : stageAppend st.stage_workloads.ordered DEFAULT_STAGE (Sys.user n) with
    | none =>
      rw [hs] at h
      cases h
    | some l' =>
      rw [hs] at h
      have h2 : Except.ok { st with stage_workloads := ⟨l'⟩ } = Except.ok st' := h
      cases h2
      obtain ⟨pre, sl, post, h1, h2⟩ :=
        stageAppend_shape st.stage_workloads.ordered DEFAULT_STAGE (Sys.user n) l' hs
      exact ⟨pre, sl, post, h1, h2⟩

/-- C8 witness: the two-stage state `stC8` finishes with order
`[user 1, user 2, user 3] ++ [user 9]`, and `add_system` on it appends to
the default stage. -/
theorem C8_stage_order_witness :
    ([Sys.user 1, Sys.user 2, Sys.user 3, Sys.user 9]
        = [Sys.user 1, Sys.user 2, Sys.user 3] ++ stC8.resets)
    ∧ (∃ pre sl post,
        stC8.stage_workloads.ordered = pre ++ (DEFAULT_STAGE, sl) :: post
        ∧ { stC8 with stage_workloads :=
              ⟨[(DEFAULT_STAGE, [Sys.user 1, Sys.user 2, Sys.user 4]),
                ("s2", [Sys.user 3])]⟩ }.stage_workloads.ordered
            = pre ++ (DEFAULT_STAGE, sl ++ [Sys.user 4]) :: post) :=
  ⟨C8_stage_order.2.1 stC8 DEFAULT_STAGE "s2" (Sys.user 1) (Sys.user 2) (Sys.user 3)
      [Sys.user 1, Sys.user 2, Sys.user 3, Sys.user 9] [] rfl rfl,
   C8_stage_order.2.2 stC8 4 { stC8 with stage_workloads :=
      ⟨[(DEFAULT_STAGE, [Sys.user 1, Sys.user 2, Sys.user 4]),
        ("s2", [Sys.user 3])]⟩ } rfl⟩

/-- C9: the current plugin path of a fresh builder has no duplicate key;
every successful operation restores the path to exactly its value before
the call (push of `T`'s key before `build`, pop after recording the added
set), so the no-duplicate invariant is preserved by every operation; and
inside `add_plugin::<T>` the body executes from the path extended with
`T`'s key, still duplicate-free thanks to the cycle check. -/
theorem C9_path_invariant :
    AppBuilder.new.track_current_plugin.Nodup
    ∧ (∀ st op st', runOp st op = Except.ok st' →
        st'.track_current_plugin = st.track_current_plugin)
    ∧ (∀ st t nm body st', runOp st (Op.addPlugin t nm body) = Except.ok st' →
        ∃ st3, runOps (pluginEntryState st t nm) body = Except.ok st3
          ∧ (pluginEntryState st t nm).track_current_plugin
              = st.track_current_plugin ++ [t]
          ∧ (st.track_current_plugin.Nodup →
              (pluginEntryState st t nm).track_current_plugin.Nodup)
          ∧ st'.track_current_plugin = st.track_current_plugin) := by
  refine ⟨List.nodup_nil, ?_, ?_⟩
  · intro st op st' h
    exact (runOp_evolves st op st' h).1
  · intro st t nm body st' h
    obtain ⟨hget, hmem, st3, hrun, hst'⟩ := runOp_addPlugin_ok st t nm body st' h
    refine ⟨st3, hrun, rfl, ?_, (runOp_evolves st _ st' h).1⟩
    intro hnd
    show (st.track_current_plugin ++ [t]).Nodup
    simp [List.nodup_append, hnd, hmem]

/-- C9 witness: instantiates path restoration on a simple call and on a
complete `add_plugin` call. -/
theorem C9_path_invariant_witness :
    ({ AppBuilder.new with resets := [Sys.user 0] }.track_current_plugin
        = AppBuilder.new.track_current_plugin)
    ∧ (∃ st3, runOps (pluginEntryState AppBuilder.new 0 "A") Ops.nil = Except.ok st3
        ∧ (pluginEntryState AppBuilder.new 0 "A").track_current_plugin
            = AppBuilder.new.track_current_plugin ++ [0]
        ∧ (AppBuilder.new.track_current_plugin.Nodup →
            (pluginEntryState AppBuilder.new 0 "A").track_current_plugin.Nodup)
        ∧ stC4.track_current_plugin = AppBuilder.new.track_current_plugin) :=
  ⟨C9_path_invariant.2.1 AppBuilder.new (Op.addResetSystem 0)
      { AppBuilder.new with resets := [Sys.user 0] } rfl,
   C9_path_invariant.2.2 AppBuilder.new 0 "A" Ops.nil stC4 rfl⟩

/-- C10: in every reachable builder state, all keys of `track_uniques` and
`track_unique_dependencies` are also interned in `track_type_names`
(every registration path calls `tracked_type_id_of` first), so the
`unwrap()`ed name-table lookups performed by `finish` never fail: `finish`
cannot panic with a missing type name. -/
theorem C10_type_names_total :
    ∀ ops st, Reaches ops st →
      (∀ u, alistContains st.track_uniques u = true →
        alistContains st.track_type_names u = true)
      ∧ (∀ u, alistContains st.track_unique_dependencies u = true →
        alistContains st.track_type_names u = true)
      ∧ (∀ u, finish st ≠ Except.error (BuildError.missingTypeName u)) := by
  intro ops st hR
  have hInv := reaches_inv ops st hR
  exact ⟨hInv.1, hInv.2.1, fun u => finish_not_missing_name st hInv u⟩

/-- C10 witness: instantiated at the build `opsC10` which registers one
unique and one unique dependency. -/
theorem C10_type_names_total_witness :
    (∀ u, alistContains stC10.track_uniques u = true →
      alistContains stC10.track_type_names u = true)
    ∧ (∀ u, alistContains stC10.track_unique_dependencies u = true →
      alistContains stC10.track_type_names u = true)
    ∧ (∀ u, finish stC10 ≠ Except.error (BuildError.missingTypeName u)) :=
  C10_type_names_total opsC10 stC10 rfl
